import Mathlib

/-!
# Verification of the entity canonicalization and conflict detection core

Shallow embedding of `server/services/canonicalization.py` and
`server/services/conflict_detection.py` of the graphdemo repository,
together with proofs settling the specification claims about them.

Modelling conventions:
* Python floats are idealized as exact rationals (`ℚ`); the cosine
  similarity value, which involves square roots, lives in `ℝ`.
* Python strings are modelled as Lean `String`/`List Char`; the inputs of
  interest are ASCII, for which `Char.toLower` agrees with `str.lower`.
* `difflib.SequenceMatcher.ratio` is embedded exactly (for sequences
  shorter than 200 characters, where CPython's autojunk heuristic is
  inert and the junk set is empty, so the two junk-extension loops of
  `find_longest_match` are no-ops).
* Python's stable `sorted` is modelled by `List.insertionSort`, which is
  the (unique) stable sort for the given total preorder.
* The `models.core` data classes (`Entity`, `Relationship`, ...) are not
  part of the sources; they are modelled from the spec (section 3).
-/

namespace GraphDemo

/-! ## Python character and string primitives -/

/-- Python `\w` (word character) for ASCII text: `[A-Za-z0-9_]`. -/
def isWordChar (c : Char) : Bool :=
  (('a' ≤ c && c ≤ 'z') || ('A' ≤ c && c ≤ 'Z') || ('0' ≤ c && c ≤ '9') || c = '_')

/-- Python `\s` (whitespace) restricted to the ASCII whitespace characters. -/
def isSpaceChar (c : Char) : Bool :=
  (c = ' ' || c = '\t' || c = '\n' || c = '\r' || c = '\x0b' || c = '\x0c')

/-- ASCII uppercase letter test (`[A-Z]`). -/
def isUpperAZ (c : Char) : Bool := 'A' ≤ c && c ≤ 'Z'

/-- ASCII alphabetic test (`[A-Za-z]`). -/
def isAlphaAZ (c : Char) : Bool := ('a' ≤ c && c ≤ 'z') || ('A' ≤ c && c ≤ 'Z')

/-- Python `str.lower()` on a character (ASCII). -/
def pyCharLower (c : Char) : Char :=
  if 'A' ≤ c && c ≤ 'Z' then Char.ofNat (c.toNat + 32) else c

/-- Python `str.lower()` (ASCII). -/
def pyLower (s : String) : String := ⟨s.data.map pyCharLower⟩

/-- Python `str.strip()`: remove leading and trailing whitespace. -/
def pyStrip (s : List Char) : List Char :=
  ((s.dropWhile isSpaceChar).reverse.dropWhile isSpaceChar).reverse

/-! ## `difflib.SequenceMatcher` (ratio only)

The embedding follows CPython's `difflib.py`: `find_longest_match` is the
`j2len` dynamic program, `get_matching_blocks` is the divide-and-conquer
around it, and `ratio` is `2 * (total matched) / (len(a) + len(b))`.
The association list `j2len` maps a position `j` in `b` to the length of
the longest common run ending at the current position of `a` and at `j`.
-/

/-- Positions (ascending) at which character `c` occurs in `b`
(CPython's `b2j` table, with no junk). -/
def b2j (b : List Char) (c : Char) : List Nat :=
  (List.range b.length).filter (fun j => b.getD j ' ' == c)

/-- Inner loop of `find_longest_match`: scan the candidate `j` positions
for the current `i`, updating `newj2len` and the best block.
In CPython `j2len.get(j-1, 0)` sees `-1` for `j = 0`, never a real key,
hence the explicit `j = 0` guard. -/
def flmScanJ (i blo bhi : Nat) (j2len : List (Nat × Nat)) :
    List Nat → List (Nat × Nat) → Nat → Nat → Nat →
      (List (Nat × Nat) × Nat × Nat × Nat)
  | [], newj2len, besti, bestj, bestsize => (newj2len, besti, bestj, bestsize)
  | j :: js, newj2len, besti, bestj, bestsize =>
    if j < blo then
      flmScanJ i blo bhi j2len js newj2len besti bestj bestsize
    else if bhi ≤ j then
      (newj2len, besti, bestj, bestsize)
    else
      let prev := if j = 0 then 0 else ((j2len.lookup (j - 1)).getD 0)
      let k := prev + 1
      if bestsize < k then
        flmScanJ i blo bhi j2len js ((j, k) :: newj2len) (i + 1 - k) (j + 1 - k) k
      else
        flmScanJ i blo bhi j2len js ((j, k) :: newj2len) besti bestj bestsize

/-- Outer loop of `find_longest_match` over `i ∈ [alo, ahi)`. -/
def flmLoopI (a b : List Char) (blo bhi : Nat) :
    Nat → Nat → List (Nat × Nat) → Nat → Nat → Nat → (Nat × Nat × Nat)
  | 0, _, _, besti, bestj, bestsize => (besti, bestj, bestsize)
  | steps + 1, i, j2len, besti, bestj, bestsize =>
    let res := flmScanJ i blo bhi j2len (b2j b (a.getD i ' ')) [] besti bestj bestsize
    flmLoopI a b blo bhi steps (i + 1) res.1 res.2.1 res.2.2.1 res.2.2.2

/-- Backward extension loop of `find_longest_match` (a no-op with an empty
junk set, kept for fidelity to the source). -/
def flmExtendBack (a b : List Char) (alo blo : Nat) :
    Nat → Nat → Nat → Nat → (Nat × Nat × Nat)
  | 0, besti, bestj, bestsize => (besti, bestj, bestsize)
  | fuel + 1, besti, bestj, bestsize =>
    if alo < besti && blo < bestj &&
        (a.getD (besti - 1) ' ' == b.getD (bestj - 1) ' ') then
      flmExtendBack a b alo blo fuel (besti - 1) (bestj - 1) (bestsize + 1)
    else
      (besti, bestj, bestsize)

/-- Forward extension loop of `find_longest_match` (a no-op with an empty
junk set, kept for fidelity to the source). -/
def flmExtendFwd (a b : List Char) (ahi bhi : Nat) (besti bestj : Nat) :
    Nat → Nat → Nat
  | 0, bestsize => bestsize
  | fuel + 1, bestsize =>
    if besti + bestsize < ahi && bestj + bestsize < bhi &&
        (a.getD (besti + bestsize) ' ' == b.getD (bestj + bestsize) ' ') then
      flmExtendFwd a b ahi bhi besti bestj fuel (bestsize + 1)
    else
      bestsize

/-- CPython `SequenceMatcher.find_longest_match` on the window
`a[alo:ahi]`, `b[blo:bhi]` (no junk, no autojunk). -/
def findLongestMatch (a b : List Char) (alo ahi blo bhi : Nat) :
    Nat × Nat × Nat :=
  let core := flmLoopI a b blo bhi (ahi - alo) alo [] alo blo 0
  let back := flmExtendBack a b alo blo core.1 core.1 core.2.1 core.2.2
  let size := flmExtendFwd a b ahi bhi back.1 back.2.1 (ahi + bhi) back.2.2
  (back.1, back.2.1, size)

/-- Total size of the matching blocks found by `get_matching_blocks`
(the divide-and-conquer around `find_longest_match`); the adjacent-block
merging done by CPython does not change this total. -/
def matchingSum (a b : List Char) : Nat → Nat → Nat → Nat → Nat → Nat
  | 0, _, _, _, _ => 0
  | fuel + 1, alo, ahi, blo, bhi =>
    let m := findLongestMatch a b alo ahi blo bhi
    let i := m.1
    let j := m.2.1
    let k := m.2.2
    if k = 0 then 0
    else
      k + (if alo < i && blo < j then matchingSum a b fuel alo i blo j else 0)
        + (if i + k < ahi && j + k < bhi then
            matchingSum a b fuel (i + k) ahi (j + k) bhi else 0)

/-- `difflib.SequenceMatcher(None, a, b).ratio()`: `2M/T` where `M` is the
total matched size and `T` the total length; `1` when both are empty. -/
def pyRatioL (a b : List Char) : ℚ :=
  if a.length + b.length = 0 then 1
  else
    (2 * (matchingSum a b (a.length + b.length + 1) 0 a.length 0 b.length) : ℚ) /
      ((a.length : ℚ) + (b.length : ℚ))

/-- `SequenceMatcher` ratio on strings. -/
def pyRatio (a b : String) : ℚ := pyRatioL a.data b.data

/-! ## Tokenization and regular expressions

`canonicalization.py` uses three regular expressions:
`\b[A-Z]{2,}\b` (acronyms), `\(([^)]+)\)` (parentheticals) and
`\b[A-Za-z]+\b` (words), plus `re.sub(r'[^\w\s]', '', ...)` in
`normalize`.  Because every character matched by `[A-Z]{2,}` or
`[A-Za-z]+` is a word character, a `\b`-delimited match is exactly a
maximal run of word characters all of which lie in the given class. -/

/-- Maximal runs of characters satisfying `p` (used with `isWordChar`
this yields the `\w+` tokens of a string). -/
def tokensBy (p : Char → Bool) : List Char → List (List Char)
  | [] => []
  | c :: cs =>
    if p c then
      ((c :: cs.takeWhile p)) :: tokensBy p (cs.dropWhile p)
    else
      tokensBy p cs
termination_by l => l.length
decreasing_by
  · simpa using Nat.lt_succ_of_le (List.dropWhile_sublist (l := cs) (p := p)).length_le
  · simp

/-- `re.findall(r'\b[A-Z]{2,}\b', text)`: the `\w+` tokens consisting
entirely of uppercase letters, of length at least 2. -/
def allCapsTokens (s : List Char) : List (List Char) :=
  (tokensBy isWordChar s).filter (fun t => 2 ≤ t.length && t.all isUpperAZ)

/-- `re.findall(r'\(([^)]+)\)', text)`: non-overlapping nonempty
parenthesized chunks, scanned left to right. -/
def pyParenFind : List Char → List (List Char)
  | [] => []
  | c :: rest =>
    if c = '(' then
      let content := rest.takeWhile (fun d => d ≠ ')')
      if content ≠ [] && content.length < rest.length then
        content :: pyParenFind (rest.drop (content.length + 1))
      else
        pyParenFind rest
    else
      pyParenFind rest
termination_by l => l.length
decreasing_by
  · simp only [List.length_cons, List.length_drop]
    omega
  · simp
  · simp

/-- `re.match(r'\b[A-Z]{2,}\b', s)` (anchored at the start): the leading
maximal `\w`-run exists, has length at least 2 and is all uppercase. -/
def startsWithAcronym (s : List Char) : Bool :=
  let run := s.takeWhile isWordChar
  2 ≤ run.length && run.all isUpperAZ && run.length = (s.takeWhile isUpperAZ).length
    && (s.length = run.length || !(isWordChar (s.getD run.length ' ')))

/-- `re.findall(r'\b[A-Za-z]+\b', full_name)`: the `\w+` tokens that are
entirely alphabetic. -/
def alphaWords (s : List Char) : List (List Char) :=
  (tokensBy isWordChar s).filter (fun t => t.all isAlphaAZ)

/-! ## `EntityCanonicalizer` string helpers -/

/-- `_extract_acronyms`: standalone all-caps tokens, plus every stripped
parenthetical chunk that starts with an acronym (note the source adds the
whole stripped chunk, not just the acronym). -/
def extract_acronyms (text : String) : List String :=
  (allCapsTokens text.data).map (fun t => ⟨t⟩) ++
    ((pyParenFind text.data).map pyStrip).filterMap
      (fun t => if startsWithAcronym t then some ⟨t⟩ else none)

/-- Python stop-word set used by `_generate_acronym_candidates`. -/
def acronymStopWords : List String :=
  ["the", "of", "and", "or", "in", "on", "at", "to", "for", "with", "by"]

/-- First letters of the words, uppercased (`''.join(w[0].upper() ...)`). -/
def firstLetterAcronym (ws : List (List Char)) : String :=
  ⟨ws.filterMap (fun w => w.head?.map (fun c => c.toUpper))⟩

/-- `_generate_acronym_candidates`: the first-letter acronym of all words
(only when there are at least two), plus the acronym of the non-stop-word
words when dropping stop words changes the word count. -/
def generate_acronym_candidates (full_name : String) : List String :=
  let words := alphaWords full_name.data
  if 2 ≤ words.length then
    let first := firstLetterAcronym words
    let important := words.filter
      (fun w => !(acronymStopWords.contains (⟨w.map pyCharLower⟩ : String)))
    if 2 ≤ important.length && important.length ≠ words.length then
      [first, firstLetterAcronym important]
    else
      [first]
  else
    []

/-- `normalize` inside `_is_alias_match`:
`re.sub(r'[^\w\s]', '', text.lower().strip())`. -/
def pyNormalize (text : String) : String :=
  ⟨(pyStrip (text.data.map pyCharLower)).filter
    (fun c => isWordChar c || isSpaceChar c)⟩

/-- Normalized names and aliases of one side, empty strings removed
(`all_names` in `_is_alias_match`); a list modelling a Python set, with
membership as the set semantics. -/
def allNames (name : String) (aliases : List String) : List String :=
  ((name :: aliases).map pyNormalize).filter (fun s => s ≠ "")

/-- `_is_alias_match`: exact normalized intersection, acronym matches, or
a pair of normalized names of length ≥ 3 with lexical similarity ≥ 0.9. -/
def _is_alias_match (name1 name2 : String) (aliases1 aliases2 : List String) :
    Bool :=
  let all_names1 := allNames name1 aliases1
  let all_names2 := allNames name2 aliases2
  if all_names1.any (fun n => all_names2.contains n) then true
  else
    let acronyms1 := (name1 :: aliases1).flatMap
      (fun n => extract_acronyms n ++ generate_acronym_candidates n)
    let acronyms2 := (name2 :: aliases2).flatMap
      (fun n => extract_acronyms n ++ generate_acronym_candidates n)
    let normAcr1 := acronyms1.map pyNormalize
    let normAcr2 := acronyms2.map pyNormalize
    if normAcr1.any (fun n => all_names2.contains n) ||
        normAcr2.any (fun n => all_names1.contains n) then true
    else if normAcr1.any (fun n => normAcr2.contains n) then true
    else
      all_names1.any (fun n1 => all_names2.any (fun n2 =>
        3 ≤ n1.length && 3 ≤ n2.length && (9 / 10 : ℚ) ≤ pyRatio n1 n2))

/-! ## Data model

Modelled from the spec: the `models.core` module is not among the
sources; section 3 of the spec documents `Entity`, `SourceSpan`,
`Relationship`, `RelationType` and `Evidence`, which are embedded here.
Timestamps are opaque `Nat` values; "now" is passed explicitly where the
source calls `datetime.utcnow()`. -/

/-- Modelled from the spec: the fixed entity type enumeration. -/
inductive EntityType
  | concept | library | person | organization | paper | system | metric
deriving DecidableEq

/-- Modelled from the spec: a `{doc_id, start, end}` provenance record
(`end` is renamed `stop`, as `end` is reserved in Lean). -/
structure SourceSpan where
  doc_id : String
  start : Nat
  stop : Nat
deriving DecidableEq

/-- Modelled from the spec: an entity record.  `embedding = none` models
an absent embedding; a present-but-empty list is falsy in Python, which
`_should_merge_entities` treats like an absent embedding. -/
structure Entity where
  id : String
  name : String
  type : EntityType
  aliases : List String
  embedding : Option (List ℚ)
  salience : ℚ
  source_spans : List SourceSpan
  summary : String
  created_at : Nat
  updated_at : Nat
deriving DecidableEq

instance : Inhabited Entity :=
  ⟨⟨"", "", EntityType.concept, [], none, 0, [], "", 0, 0⟩⟩

/-- Modelled from the spec: relationship predicate enumeration (only
`compares_with` is used by the conflict detector). -/
inductive RelationType
  | compares_with | other
deriving DecidableEq

/-- Modelled from the spec: an `{doc_id, quote, offset}` evidence record. -/
structure Evidence where
  doc_id : String
  quote : String
  offset : Nat
deriving DecidableEq

/-- Modelled from the spec: a relationship edge. -/
structure Relationship where
  from_entity : String
  to_entity : String
  predicate : RelationType
  confidence : ℚ
  evidence : List Evidence
  directional : Bool
  created_at : Nat
deriving DecidableEq

instance : Inhabited Relationship :=
  ⟨⟨"", "", RelationType.other, 0, [], true, 0⟩⟩

/-! ## Cosine similarity (`_calculate_cosine_similarity`) -/

/-- Dot product of the two vectors (`sum(a * b for a, b in zip(...))`). -/
def dotQ (v1 v2 : List ℚ) : ℚ := (List.zipWith (fun a b => a * b) v1 v2).sum

/-- Sum of squares of a vector (the square of its Euclidean norm). -/
def normSqQ (v : List ℚ) : ℚ := (v.map (fun a => a * a)).sum

/-- `_calculate_cosine_similarity`: `0` for empty or length-mismatched
vectors and for zero norms, else `max(0, dot/(‖a‖·‖b‖))`.  The value is
real because of the square roots; float rounding is idealized away. -/
noncomputable def _calculate_cosine_similarity (v1 v2 : List ℚ) : ℝ :=
  if v1 = [] ∨ v2 = [] ∨ v1.length ≠ v2.length then 0
  else
    let norm_a := Real.sqrt ((normSqQ v1 : ℚ) : ℝ)
    let norm_b := Real.sqrt ((normSqQ v2 : ℚ) : ℝ)
    if norm_a = 0 ∨ norm_b = 0 then 0
    else max 0 (((dotQ v1 v2 : ℚ) : ℝ) / (norm_a * norm_b))

/-- Decidable form of the test
`_calculate_cosine_similarity(v1, v2) >= 0.86` used by
`_should_merge_entities` (threshold left at its default).  The lemma
`cosineGE_iff` below proves it equivalent to the real-valued comparison,
which keeps the clustering functions executable. -/
def cosineGE086 (v1 v2 : List ℚ) : Bool :=
  v1 ≠ [] && v2 ≠ [] && v1.length = v2.length &&
    normSqQ v1 ≠ 0 && normSqQ v2 ≠ 0 &&
    0 ≤ dotQ v1 v2 &&
    (86 / 100 : ℚ) ^ 2 * (normSqQ v1 * normSqQ v2) ≤ (dotQ v1 v2) ^ 2

/-! ## Merge decision (`_should_merge_entities`) -/

/-- `_should_merge_entities` (the returned reason string is dropped):
same type required; vector similarity `≥ 0.86` when both embeddings are
present and truthy; otherwise alias/acronym matching. -/
def _should_merge_entities (e1 e2 : Entity) : Bool :=
  if e1.type ≠ e2.type then false
  else if (match e1.embedding, e2.embedding with
    | some v1, some v2 => v1 ≠ [] && v2 ≠ [] && cosineGE086 v1 v2
    | _, _ => false) then true
  else _is_alias_match e1.name e2.name e1.aliases e2.aliases

/-! ## Entity merging (`_merge_entities`) -/

/-- Descending stable sort by salience
(`sorted(entities, key=lambda e: e.salience, reverse=True)`): Python's
stable sort with `reverse=True` keeps equal keys in input order, which is
exactly the stable insertion sort for `e1.salience ≥ e2.salience`. -/
def sortBySalienceDesc (l : List Entity) : List Entity :=
  l.insertionSort (fun e1 e2 => e2.salience ≤ e1.salience)

/-- Lexicographic sort of strings (`sorted(list(<set of strings>))`). -/
def sortStrings (l : List String) : List String :=
  l.insertionSort (fun a b => a ≤ b)

/-- Per-member weight used in the salience average:
`len(entity.source_spans) if entity.source_spans else 1`. -/
def spanWeight (e : Entity) : ℚ :=
  if e.source_spans = [] then 1 else (e.source_spans.length : ℚ)

/-- The merged alias list (`sorted(list(merged_aliases))`): each
non-primary member's name when it differs case-insensitively from the
primary's, plus every member's declared aliases; the Python string set is
modelled as a concatenation deduplicated before sorting (same set, same
sorted list).  The argument is the salience-sorted group. -/
def mergedAliases (sorted : List Entity) : List String :=
  sortStrings ((((sorted.headD default).aliases ++ sorted.tail.flatMap (fun e =>
    (if pyLower e.name ≠ pyLower (sorted.headD default).name then [e.name] else [])
      ++ e.aliases))).dedup)

/-- The merged source spans: the primary's spans followed by every other
member's spans in salience order. -/
def mergedSpans (sorted : List Entity) : List SourceSpan :=
  (sorted.headD default).source_spans ++
    sorted.tail.flatMap (fun e => e.source_spans)

/-- `document_count`: the number of distinct `doc_id`s across the merged
spans (the size of the `document_sources` set). -/
def documentCount (sorted : List Entity) : Nat :=
  (((mergedSpans sorted).map (fun s => s.doc_id)).dedup).length

/-- `cross_document_bonus = min(0.1, (document_count - 1) * 0.05)`. -/
def crossDocumentBonus (sorted : List Entity) : ℚ :=
  min (1 / 10) (((documentCount sorted : ℚ) - 1) * (5 / 100))

/-- `final_salience`: the span-count-weighted average of member
saliences plus the cross-document bonus, capped at 1 (with the source's
fallbacks for zero spans and zero total weight). -/
def mergedSalience (sorted : List Entity) : ℚ :=
  if 0 < (mergedSpans sorted).length then
    min 1 ((if 0 < (sorted.map spanWeight).sum then
        (sorted.map (fun e => e.salience * spanWeight e)).sum /
          (sorted.map spanWeight).sum
      else (sorted.headD default).salience) + crossDocumentBonus sorted)
  else
    min 1 ((sorted.map (fun e => e.salience)).sum / (sorted.length : ℚ)
      + crossDocumentBonus sorted)

/-- `enhanced_summary`: the primary's summary, annotated with the
document count when it exceeds one. -/
def mergedSummary (sorted : List Entity) : String :=
  if 1 < documentCount sorted then
    (sorted.headD default).summary ++ " (appears in " ++
      toString (documentCount sorted) ++ " documents)"
  else (sorted.headD default).summary

/-- The body of `_merge_entities` for a group of two or more entities.
`now` stands for `datetime.utcnow()`. -/
def mergeCore (now : Nat) (entities : List Entity) : Entity :=
  let sorted := sortBySalienceDesc entities
  let primary := sorted.headD default
  { id := primary.id
    name := primary.name
    type := primary.type
    aliases := mergedAliases sorted
    embedding := primary.embedding
    salience := mergedSalience sorted
    source_spans := mergedSpans sorted
    summary := mergedSummary sorted
    created_at := (sorted.map (fun e => e.created_at)).foldr min primary.created_at
    updated_at := now }

/-- `_merge_entities`: raising `CanonicalizeError` on an empty group is
modelled as `none`; a singleton group is returned unchanged. -/
def _merge_entities (now : Nat) : List Entity → Option Entity
  | [] => none
  | [e] => some e
  | e1 :: e2 :: rest => some (mergeCore now (e1 :: e2 :: rest))

/-! ## Clustering (`canonicalize_entities`)

The source walks each per-type bucket, seeds a group at each
not-yet-processed entity and absorbs every later not-yet-processed entity
`other` with `_should_merge_entities(seed, other)`; `processed_ids` is a
single set threaded through all buckets. -/

/-- The inner candidate scan for one seed: absorb each later entity whose
id is unprocessed and which should merge with the seed, adding absorbed
ids to the processed set.  Returns the absorbed entities (in order) and
the updated processed set. -/
def absorb (processed : List String) (seed : Entity) :
    List Entity → List Entity × List String
  | [] => ([], processed)
  | e :: rest =>
    if e.id ∈ processed then absorb processed seed rest
    else if _should_merge_entities seed e then
      let r := absorb (e.id :: processed) seed rest
      (e :: r.1, r.2)
    else absorb processed seed rest

/-- The outer seed loop over one bucket: each unprocessed entity opens a
group (itself plus what `absorb` collects from the remainder). -/
def buildGroups (processed : List String) :
    List Entity → List (List Entity) × List String
  | [] => ([], processed)
  | e :: rest =>
    if e.id ∈ processed then buildGroups processed rest
    else
      let a := absorb (e.id :: processed) e rest
      let r := buildGroups a.2 rest
      ((e :: a.1) :: r.1, r.2)

/-- First-occurrence deduplication (iteration order of a Python dict
keyed by insertion). -/
def firstOccur [DecidableEq α] (seen : List α) : List α → List α
  | [] => []
  | a :: l =>
    if a ∈ seen then firstOccur seen l else a :: firstOccur (a :: seen) l

/-- The distinct entity types of a batch, in order of first appearance
(the iteration order of `entities_by_type`). -/
def typesInOrder (es : List Entity) : List EntityType :=
  firstOccur [] (es.map (fun e => e.type))

/-- Per-type-bucket grouping, threading the shared processed set. -/
def bucketGroups (es : List Entity) (processed : List String) :
    List EntityType → List (List Entity)
  | [] => []
  | t :: ts =>
    let bucket := es.filter (fun e => e.type = t)
    let r := buildGroups processed bucket
    r.1 ++ bucketGroups es r.2 ts

/-- All merge groups formed by `canonicalize_entities` for a batch. -/
def groupsOf (es : List Entity) : List (List Entity) :=
  bucketGroups es [] (typesInOrder es)

/-- Collapse one group as the source does: singleton groups pass through,
larger groups go to `_merge_entities` (always a nonempty group here). -/
def mergeGroupEntity (now : Nat) : List Entity → Entity
  | [e] => e
  | g => mergeCore now g

/-- `canonicalize_entities`: group per type bucket, then merge each
group.  In the source the outputs are appended bucket by bucket; mapping
the merge over the concatenated group list yields the same list.  (The
top-level `except` fallback, which returns the input on an unexpected
exception, has no counterpart in this pure embedding.) -/
def canonicalize_entities (now : Nat) (es : List Entity) : List Entity :=
  (groupsOf es).map (mergeGroupEntity now)

/-! ## Conflict detection (`conflict_detection.py`)

`ConflictDetector` with its default `similarity_threshold = 0.7`. -/

/-- `_get_document_sources`: the set of `doc_id`s of an entity's spans. -/
def _get_document_sources (e : Entity) : Finset String :=
  (e.source_spans.map (fun s => s.doc_id)).toFinset

/-- `_extract_conflicting_attributes` (the interpolated detail text of
each conflict description is elided; only the kind and count of the
entries matter downstream).  Name variation above similarity `0.7`,
salience gap above `0.3`, summary similarity below `0.5` for summaries
longer than 10 characters. -/
def _extract_conflicting_attributes (e1 e2 : Entity) : List String :=
  (if pyLower e1.name ≠ pyLower e2.name &&
      (7 / 10 : ℚ) < pyRatio (pyLower e1.name) (pyLower e2.name) then
    ["Name variation"] else []) ++
  (if (3 / 10 : ℚ) < |e1.salience - e2.salience| then
    ["Salience difference"] else []) ++
  (if e1.summary ≠ "" && e2.summary ≠ "" &&
      pyRatio (pyLower e1.summary) (pyLower e2.summary) < (1 / 2 : ℚ) &&
      10 < e1.summary.length && 10 < e2.summary.length then
    ["Summary difference"] else [])

/-- `_should_create_comparison_relationship` (the reason string is
dropped): same type, nonempty and non-identical and non-overlapping
document sets, at least one conflict, and the two-tier name-similarity
acceptance rule. -/
def _should_create_comparison_relationship (e1 e2 : Entity) :
    Bool × List String :=
  if e1.type ≠ e2.type then (false, [])
  else if _get_document_sources e1 = ∅ ∨ _get_document_sources e2 = ∅ ∨
      _get_document_sources e1 = _get_document_sources e2 then (false, [])
  else if (_get_document_sources e1 ∩ _get_document_sources e2).Nonempty then
    (false, [])
  else if _extract_conflicting_attributes e1 e2 = [] then (false, [])
  else if (1 / 2 : ℚ) ≤ pyRatio (pyLower e1.name) (pyLower e2.name) ∧
      1 ≤ (_extract_conflicting_attributes e1 e2).length then
    (true, _extract_conflicting_attributes e1 e2)
  else if (3 / 10 : ℚ) < pyRatio (pyLower e1.name) (pyLower e2.name) ∧
      2 ≤ (_extract_conflicting_attributes e1 e2).length then
    (true, _extract_conflicting_attributes e1 e2)
  else (false, _extract_conflicting_attributes e1 e2)

/-- `detect_conflicts_in_entities`: the pairwise scan (`i < j`) inside
each type bucket, collecting accepted pairs with their conflict lists
(the reason string is dropped). -/
def pairScan : List Entity → List (Entity × Entity × List String)
  | [] => []
  | e1 :: rest =>
    rest.filterMap (fun e2 =>
      let r := _should_create_comparison_relationship e1 e2
      if r.1 then some (e1, e2, r.2) else none) ++ pairScan rest

/-- `detect_conflicts_in_entities` over the per-type buckets. -/
def detect_conflicts_in_entities (es : List Entity) :
    List (Entity × Entity × List String) :=
  (typesInOrder es).flatMap (fun t => pairScan (es.filter (fun e => e.type = t)))

/-- Evidence built for one accepted pair: for each side with spans, the
first span's document and offset with an `"Entity k: name - summary"`
quote truncated to 100 summary characters. -/
def comparisonEvidence (e1 e2 : Entity) : List Evidence :=
  ((if h : e1.source_spans ≠ [] then
      [⟨(e1.source_spans.head h).doc_id,
        "Entity 1: " ++ e1.name ++ " - " ++ ⟨e1.summary.data.take 100⟩,
        (e1.source_spans.head h).start⟩]
    else []) : List Evidence) ++
  (if h : e2.source_spans ≠ [] then
      [⟨(e2.source_spans.head h).doc_id,
        "Entity 2: " ++ e2.name ++ " - " ++ ⟨e2.summary.data.take 100⟩,
        (e2.source_spans.head h).start⟩]
    else [])

/-- `create_comparison_relationships`: two `compares_with` edges per
accepted pair (both directions), confidence `0.8`, non-directional,
sharing the pair's evidence list. -/
def create_comparison_relationships (now : Nat)
    (pairs : List (Entity × Entity × List String)) : List Relationship :=
  pairs.flatMap (fun p =>
    let e1 := p.1
    let e2 := p.2.1
    let ev := comparisonEvidence e1 e2
    [⟨e1.id, e2.id, RelationType.compares_with, 8 / 10, ev, false, now⟩,
     ⟨e2.id, e1.id, RelationType.compares_with, 8 / 10, ev, false, now⟩])

/-! ## Concrete entities used in counterexamples and witnesses -/

/-- Example A's "TensorFlow" (doc A, salience 0.9, Library, no embedding,
no aliases). -/
def tfA : Entity :=
  ⟨"eTF", "TensorFlow", .library, [], none, 9 / 10, [⟨"docA", 0, 10⟩], "", 0, 0⟩

/-- Example A's "Tensorflow" (doc B, salience 0.5, Library, no embedding,
no aliases). -/
def tfB : Entity :=
  ⟨"eTf", "Tensorflow", .library, [], none, 5 / 10, [⟨"docB", 0, 10⟩], "", 0, 0⟩

/-- A Library entity "Python" unrelated to the others. -/
def pyEnt : Entity :=
  ⟨"eP", "Python", .library, [], none, 1 / 2, [⟨"docA", 0, 10⟩], "", 0, 0⟩

/-- A Concept entity "Java" interleaved between the two Library entities. -/
def jvEnt : Entity :=
  ⟨"eJ", "Java", .concept, [], none, 1 / 2, [⟨"docA", 0, 10⟩], "", 0, 0⟩

/-- A Library entity "Rust" unrelated to the others. -/
def rsEnt : Entity :=
  ⟨"eR", "Rust", .library, [], none, 1 / 2, [⟨"docA", 0, 10⟩], "", 0, 0⟩

/-- Chain member A: name at lexical similarity 0.9 to `chainB` but 0.8 to
`chainC`. -/
def chainA : Entity :=
  ⟨"a", "abcdefghij", .concept, [], none, 1 / 2, [⟨"docA", 0, 10⟩], "", 0, 0⟩

/-- Chain member B: similar to both ends of the chain. -/
def chainB : Entity :=
  ⟨"b", "abcdefghix", .concept, [], none, 1 / 2, [⟨"docA", 0, 10⟩], "", 0, 0⟩

/-- Chain member C: similar to `chainB` only. -/
def chainC : Entity :=
  ⟨"c", "abcdefghxx", .concept, [], none, 1 / 2, [⟨"docA", 0, 10⟩], "", 0, 0⟩

/-- A seed entity that alias-matches `dupJava2` but not `dupJava1`. -/
def seedPy : Entity :=
  ⟨"s", "Python", .concept, [], none, 9 / 10, [⟨"docA", 0, 10⟩], "", 0, 0⟩

/-- First occurrence of the duplicated id `d`, with no aliases. -/
def dupJava1 : Entity :=
  ⟨"d", "Java", .concept, [], none, 1 / 2, [⟨"docA", 0, 10⟩], "", 0, 0⟩

/-- Second occurrence of the duplicated id `d`, carrying the aliases
`"Python"` (which alias-matches `seedPy`) and the marker `"zzz"`. -/
def dupJava2 : Entity :=
  ⟨"d", "Java", .concept, ["Python", "zzz"], none, 1 / 2, [⟨"docB", 0, 10⟩], "", 0, 0⟩

/-! ## Facts about the cosine similarity -/

theorem normSqQ_nonneg (v : List ℚ) : 0 ≤ normSqQ v := by
  refine List.sum_nonneg ?_
  intro x hx
  rcases List.mem_map.1 hx with ⟨a, _, rfl⟩
  exact mul_self_nonneg a

/-- `a²B + Ab² ≥ 2abd` whenever `d² ≤ AB` with `A, B ≥ 0` (the key step
of the inductive Cauchy–Schwarz proof). -/
theorem cs_cross_bound (a b d A B : ℚ) (hA : 0 ≤ A) (hB : 0 ≤ B)
    (hd : d ^ 2 ≤ A * B) : 2 * (a * b * d) ≤ a ^ 2 * B + A * b ^ 2 := by
  have hX : 0 ≤ a ^ 2 * B + A * b ^ 2 := by positivity
  have h2 : (2 * (a * b * d)) ^ 2 ≤ (a ^ 2 * B + A * b ^ 2) ^ 2 := by
    nlinarith [sq_nonneg (a ^ 2 * B - A * b ^ 2),
      mul_nonneg (mul_nonneg (sq_nonneg a) (sq_nonneg b)) (sub_nonneg.2 hd)]
  nlinarith [h2, hX, sq_nonneg (a ^ 2 * B + A * b ^ 2 - 2 * (a * b * d)),
    sq_nonneg (a ^ 2 * B + A * b ^ 2 + 2 * (a * b * d))]

/-- Cauchy–Schwarz for the list dot product (the lists may have
different lengths: `zipWith` truncates and the extra squares on the
longer side only help). -/
theorem dotQ_sq_le (v1 v2 : List ℚ) :
    (dotQ v1 v2) ^ 2 ≤ normSqQ v1 * normSqQ v2 := by
  induction v1 generalizing v2 with
  | nil =>
    simpa [dotQ, normSqQ] using mul_nonneg (le_refl (0 : ℚ)) (normSqQ_nonneg v2)
  | cons a t1 ih =>
    cases v2 with
    | nil =>
      have h1 : (0 : ℚ) ≤ normSqQ (a :: t1) := normSqQ_nonneg _
      simpa [dotQ, normSqQ] using h1
    | cons b t2 =>
      have hAB := ih t2
      have hA := normSqQ_nonneg t1
      have hB := normSqQ_nonneg t2
      have hcross := cs_cross_bound a b (dotQ t1 t2) (normSqQ t1) (normSqQ t2)
        hA hB hAB
      simp only [dotQ, normSqQ, List.zipWith_cons_cons, List.map_cons,
        List.sum_cons] at hAB hcross ⊢
      nlinarith [hAB, hcross]

theorem dotQ_le_sqrt_mul (v1 v2 : List ℚ) :
    ((dotQ v1 v2 : ℚ) : ℝ) ≤
      Real.sqrt ((normSqQ v1 : ℚ) : ℝ) * Real.sqrt ((normSqQ v2 : ℚ) : ℝ) := by
  have hA : (0 : ℝ) ≤ ((normSqQ v1 : ℚ) : ℝ) := by
    exact_mod_cast normSqQ_nonneg v1
  have hB : (0 : ℝ) ≤ ((normSqQ v2 : ℚ) : ℝ) := by
    exact_mod_cast normSqQ_nonneg v2
  have hcs : ((dotQ v1 v2 : ℚ) : ℝ) ^ 2 ≤
      ((normSqQ v1 : ℚ) : ℝ) * ((normSqQ v2 : ℚ) : ℝ) := by
    exact_mod_cast dotQ_sq_le v1 v2
  calc ((dotQ v1 v2 : ℚ) : ℝ) ≤ |((dotQ v1 v2 : ℚ) : ℝ)| := le_abs_self _
    _ = Real.sqrt (((dotQ v1 v2 : ℚ) : ℝ) ^ 2) := (Real.sqrt_sq_eq_abs _).symm
    _ ≤ Real.sqrt (((normSqQ v1 : ℚ) : ℝ) * ((normSqQ v2 : ℚ) : ℝ)) :=
        Real.sqrt_le_sqrt hcs
    _ = Real.sqrt ((normSqQ v1 : ℚ) : ℝ) * Real.sqrt ((normSqQ v2 : ℚ) : ℝ) :=
        Real.sqrt_mul hA _

/-- The decidable threshold test `cosineGE086` agrees with the
real-valued comparison `_calculate_cosine_similarity ≥ 0.86` performed by
the source; this justifies using the former inside the executable
`_should_merge_entities`. -/
theorem cosineGE_iff (v1 v2 : List ℚ) :
    cosineGE086 v1 v2 = true ↔
      ((86 : ℝ) / 100) ≤ _calculate_cosine_similarity v1 v2 := by
  simp only [cosineGE086, Bool.and_eq_true, decide_eq_true_eq,
    _calculate_cosine_similarity]
  by_cases hdeg : v1 = [] ∨ v2 = [] ∨ v1.length ≠ v2.length
  · rw [if_pos hdeg]
    constructor
    · rintro ⟨⟨⟨⟨⟨⟨h1, h2⟩, h3⟩, -⟩, -⟩, -⟩, -⟩
      exact absurd hdeg (by push_neg; exact ⟨h1, h2, h3⟩)
    · intro h; norm_num at h
  · rw [if_neg hdeg]
    push_neg at hdeg
    obtain ⟨h1, h2, h3⟩ := hdeg
    have hA : (0 : ℝ) ≤ ((normSqQ v1 : ℚ) : ℝ) := by
      exact_mod_cast normSqQ_nonneg v1
    have hB : (0 : ℝ) ≤ ((normSqQ v2 : ℚ) : ℝ) := by
      exact_mod_cast normSqQ_nonneg v2
    by_cases hz : normSqQ v1 = 0 ∨ normSqQ v2 = 0
    · have hzero : Real.sqrt ((normSqQ v1 : ℚ) : ℝ) = 0 ∨
          Real.sqrt ((normSqQ v2 : ℚ) : ℝ) = 0 := by
        rcases hz with hz | hz <;> [left; right] <;>
          simp [hz, Real.sqrt_eq_zero']
      rw [if_pos hzero]
      constructor
      · rintro ⟨⟨⟨⟨⟨⟨-, -⟩, -⟩, h4⟩, h5⟩, -⟩, -⟩
        exact absurd hz (by push_neg; exact ⟨h4, h5⟩)
      · intro h; norm_num at h
    · push_neg at hz
      obtain ⟨h4, h5⟩ := hz
      have hApos : (0 : ℝ) < ((normSqQ v1 : ℚ) : ℝ) :=
        lt_of_le_of_ne hA (by exact_mod_cast (Ne.symm h4))
      have hBpos : (0 : ℝ) < ((normSqQ v2 : ℚ) : ℝ) :=
        lt_of_le_of_ne hB (by exact_mod_cast (Ne.symm h5))
      have hna : (0 : ℝ) < Real.sqrt ((normSqQ v1 : ℚ) : ℝ) :=
        Real.sqrt_pos.2 hApos
      have hnb : (0 : ℝ) < Real.sqrt ((normSqQ v2 : ℚ) : ℝ) :=
        Real.sqrt_pos.2 hBpos
      have hnz : ¬ (Real.sqrt ((normSqQ v1 : ℚ) : ℝ) = 0 ∨
          Real.sqrt ((normSqQ v2 : ℚ) : ℝ) = 0) := by
        push_neg; exact ⟨ne_of_gt hna, ne_of_gt hnb⟩
      rw [if_neg hnz]
      have hprod : (0 : ℝ) <
          Real.sqrt ((normSqQ v1 : ℚ) : ℝ) * Real.sqrt ((normSqQ v2 : ℚ) : ℝ) :=
        mul_pos hna hnb
      have hmax : ((86 : ℝ) / 100) ≤
          max 0 (((dotQ v1 v2 : ℚ) : ℝ) /
            (Real.sqrt ((normSqQ v1 : ℚ) : ℝ) * Real.sqrt ((normSqQ v2 : ℚ) : ℝ))) ↔
          ((86 : ℝ) / 100) ≤ ((dotQ v1 v2 : ℚ) : ℝ) /
            (Real.sqrt ((normSqQ v1 : ℚ) : ℝ) * Real.sqrt ((normSqQ v2 : ℚ) : ℝ)) := by
        rw [le_max_iff]
        constructor
        · rintro (h | h)
          · norm_num at h
          · exact h
        · exact Or.inr
      rw [hmax, le_div_iff hprod]
      constructor
      · rintro ⟨⟨⟨⟨⟨⟨-, -⟩, -⟩, -⟩, -⟩, hdot⟩, hsq⟩
        have hdR : (0 : ℝ) ≤ ((dotQ v1 v2 : ℚ) : ℝ) := by exact_mod_cast hdot
        have hsqR : ((86 : ℝ) / 100) ^ 2 *
            (((normSqQ v1 : ℚ) : ℝ) * ((normSqQ v2 : ℚ) : ℝ)) ≤
            ((dotQ v1 v2 : ℚ) : ℝ) ^ 2 := by
          have hc := (Rat.cast_le (K := ℝ)).2 hsq
          push_cast at hc
          convert hc using 2 <;> norm_num
        calc (86 : ℝ) / 100 *
            (Real.sqrt ((normSqQ v1 : ℚ) : ℝ) * Real.sqrt ((normSqQ v2 : ℚ) : ℝ))
            = Real.sqrt (((86 : ℝ) / 100) ^ 2 *
                (((normSqQ v1 : ℚ) : ℝ) * ((normSqQ v2 : ℚ) : ℝ))) := by
              rw [Real.sqrt_mul (by positivity), Real.sqrt_sq (by norm_num),
                Real.sqrt_mul hA]
          _ ≤ Real.sqrt (((dotQ v1 v2 : ℚ) : ℝ) ^ 2) := Real.sqrt_le_sqrt hsqR
          _ = ((dotQ v1 v2 : ℚ) : ℝ) := Real.sqrt_sq hdR
      · intro h
        have hlhs : (0 : ℝ) < (86 : ℝ) / 100 *
            (Real.sqrt ((normSqQ v1 : ℚ) : ℝ) * Real.sqrt ((normSqQ v2 : ℚ) : ℝ)) :=
          mul_pos (by norm_num) hprod
        have hdR : (0 : ℝ) ≤ ((dotQ v1 v2 : ℚ) : ℝ) := le_of_lt (lt_of_lt_of_le hlhs h)
        have hd6 : 0 ≤ dotQ v1 v2 := by exact_mod_cast hdR
        have hsqrtprod : (Real.sqrt ((normSqQ v1 : ℚ) : ℝ) *
            Real.sqrt ((normSqQ v2 : ℚ) : ℝ)) ^ 2 =
            ((normSqQ v1 : ℚ) : ℝ) * ((normSqQ v2 : ℚ) : ℝ) := by
          rw [mul_pow, Real.sq_sqrt hA, Real.sq_sqrt hB]
        have hsqR : ((86 : ℝ) / 100) ^ 2 *
            (((normSqQ v1 : ℚ) : ℝ) * ((normSqQ v2 : ℚ) : ℝ)) ≤
            ((dotQ v1 v2 : ℚ) : ℝ) ^ 2 := by
          have hpow := pow_le_pow_left (le_of_lt hlhs) h 2
          calc ((86 : ℝ) / 100) ^ 2 *
              (((normSqQ v1 : ℚ) : ℝ) * ((normSqQ v2 : ℚ) : ℝ))
              = ((86 : ℝ) / 100 * (Real.sqrt ((normSqQ v1 : ℚ) : ℝ) *
                  Real.sqrt ((normSqQ v2 : ℚ) : ℝ))) ^ 2 := by
                rw [mul_pow, hsqrtprod]
            _ ≤ ((dotQ v1 v2 : ℚ) : ℝ) ^ 2 := hpow
        have hsq7 : (86 / 100 : ℚ) ^ 2 * (normSqQ v1 * normSqQ v2) ≤
            (dotQ v1 v2) ^ 2 := by
          refine (Rat.cast_le (K := ℝ)).1 ?_
          push_cast
          convert hsqR using 2 <;> norm_num
        exact ⟨⟨⟨⟨⟨⟨h1, h2⟩, h3⟩, h4⟩, h5⟩, hd6⟩, hsq7⟩

/-- C9: `cosineSimilarity` returns 0 for empty vectors, mismatched
lengths, or a zero norm (equivalently a zero sum of squares); otherwise
it is `dot/(‖a‖·‖b‖)` clamped below by 0, and it never exceeds 1 (by
Cauchy–Schwarz). -/
theorem cosine_similarity_spec (v1 v2 : List ℚ) :
    ((v1 = [] ∨ v2 = [] ∨ v1.length ≠ v2.length) →
      _calculate_cosine_similarity v1 v2 = 0)
  ∧ ((normSqQ v1 = 0 ∨ normSqQ v2 = 0) →
      _calculate_cosine_similarity v1 v2 = 0)
  ∧ (v1 ≠ [] → v2 ≠ [] → v1.length = v2.length →
      normSqQ v1 ≠ 0 → normSqQ v2 ≠ 0 →
      _calculate_cosine_similarity v1 v2 =
        max 0 (((dotQ v1 v2 : ℚ) : ℝ) /
          (Real.sqrt ((normSqQ v1 : ℚ) : ℝ) * Real.sqrt ((normSqQ v2 : ℚ) : ℝ)))
      ∧ 0 ≤ _calculate_cosine_similarity v1 v2
      ∧ _calculate_cosine_similarity v1 v2 ≤ 1) := by
  refine ⟨?_, ?_, ?_⟩
  · intro h
    simp only [_calculate_cosine_similarity, if_pos h]
  · intro h
    by_cases hdeg : v1 = [] ∨ v2 = [] ∨ v1.length ≠ v2.length
    · simp only [_calculate_cosine_similarity, if_pos hdeg]
    · have hzero : Real.sqrt ((normSqQ v1 : ℚ) : ℝ) = 0 ∨
          Real.sqrt ((normSqQ v2 : ℚ) : ℝ) = 0 := by
        rcases h with h | h <;> [left; right] <;> simp [h]
      simp only [_calculate_cosine_similarity, if_neg hdeg, if_pos hzero]
  · intro h1 h2 h3 h4 h5
    have hdeg : ¬ (v1 = [] ∨ v2 = [] ∨ v1.length ≠ v2.length) := by
      push_neg
      exact ⟨h1, h2, h3⟩
    have hA : (0 : ℝ) ≤ ((normSqQ v1 : ℚ) : ℝ) := by
      exact_mod_cast normSqQ_nonneg v1
    have hB : (0 : ℝ) ≤ ((normSqQ v2 : ℚ) : ℝ) := by
      exact_mod_cast normSqQ_nonneg v2
    have hApos : (0 : ℝ) < ((normSqQ v1 : ℚ) : ℝ) :=
      lt_of_le_of_ne hA (by exact_mod_cast (Ne.symm h4))
    have hBpos : (0 : ℝ) < ((normSqQ v2 : ℚ) : ℝ) :=
      lt_of_le_of_ne hB (by exact_mod_cast (Ne.symm h5))
    have hna : (0 : ℝ) < Real.sqrt ((normSqQ v1 : ℚ) : ℝ) := Real.sqrt_pos.2 hApos
    have hnb : (0 : ℝ) < Real.sqrt ((normSqQ v2 : ℚ) : ℝ) := Real.sqrt_pos.2 hBpos
    have hnz : ¬ (Real.sqrt ((normSqQ v1 : ℚ) : ℝ) = 0 ∨
        Real.sqrt ((normSqQ v2 : ℚ) : ℝ) = 0) := by
      push_neg
      exact ⟨ne_of_gt hna, ne_of_gt hnb⟩
    have heq : _calculate_cosine_similarity v1 v2 =
        max 0 (((dotQ v1 v2 : ℚ) : ℝ) /
          (Real.sqrt ((normSqQ v1 : ℚ) : ℝ) * Real.sqrt ((normSqQ v2 : ℚ) : ℝ))) := by
      simp only [_calculate_cosine_similarity, if_neg hdeg, if_neg hnz]
    refine ⟨heq, heq ▸ le_max_left _ _, heq ▸ ?_⟩
    refine max_le (by norm_num) ?_
    rw [div_le_one (mul_pos hna hnb)]
    exact dotQ_le_sqrt_mul v1 v2

/-- Witness for `cosine_similarity_spec` at `v1 = v2 = [1]`. -/
theorem cosine_similarity_spec_witness :
    (([(1 : ℚ)] ≠ ([] : List ℚ)) ∧ normSqQ [(1 : ℚ)] ≠ 0) ∧
      (_calculate_cosine_similarity [(1 : ℚ)] [(1 : ℚ)] =
        max 0 (((dotQ [(1 : ℚ)] [(1 : ℚ)] : ℚ) : ℝ) /
          (Real.sqrt ((normSqQ [(1 : ℚ)] : ℚ) : ℝ) *
            Real.sqrt ((normSqQ [(1 : ℚ)] : ℚ) : ℝ)))
      ∧ 0 ≤ _calculate_cosine_similarity [(1 : ℚ)] [(1 : ℚ)]
      ∧ _calculate_cosine_similarity [(1 : ℚ)] [(1 : ℚ)] ≤ 1) :=
  ⟨⟨by simp, by norm_num [normSqQ]⟩,
    (cosine_similarity_spec [(1 : ℚ)] [(1 : ℚ)]).2.2 (by simp) (by simp) rfl
      (by norm_num [normSqQ]) (by norm_num [normSqQ])⟩

/-! ## The comparison decision (claim C6) -/

/-- C6: `shouldCompare` is false when the types differ, a document set is
empty, or the document sets intersect; otherwise it accepts exactly when
the conflict list is nonempty and one of the two name-similarity tiers
applies. -/
theorem should_compare_spec (e1 e2 : Entity) :
    ((e1.type ≠ e2.type ∨ _get_document_sources e1 = ∅ ∨
        _get_document_sources e2 = ∅ ∨
        (_get_document_sources e1 ∩ _get_document_sources e2).Nonempty) →
      (_should_create_comparison_relationship e1 e2).1 = false)
  ∧ (e1.type = e2.type → _get_document_sources e1 ≠ ∅ →
      _get_document_sources e2 ≠ ∅ →
      _get_document_sources e1 ∩ _get_document_sources e2 = ∅ →
      ((_should_create_comparison_relationship e1 e2).1 = true ↔
        (_extract_conflicting_attributes e1 e2 ≠ [] ∧
          (((1 / 2 : ℚ) ≤ pyRatio (pyLower e1.name) (pyLower e2.name) ∧
              1 ≤ (_extract_conflicting_attributes e1 e2).length) ∨
            ((3 / 10 : ℚ) < pyRatio (pyLower e1.name) (pyLower e2.name) ∧
              2 ≤ (_extract_conflicting_attributes e1 e2).length))))) := by
  constructor
  · intro h
    unfold _should_create_comparison_relationship
    split_ifs with h1 h2 h3 h4 h5 h6
    · rfl
    · rfl
    · rfl
    · rfl
    · -- all guards failed although `h` asserted one of them
      exfalso
      push_neg at h1 h2
      rcases h with h | h | h | h
      · exact h h1
      · exact h2.1 h
      · exact h2.2.1 h
      · exact h3 h
    · exfalso
      push_neg at h1 h2
      rcases h with h | h | h | h
      · exact h h1
      · exact h2.1 h
      · exact h2.2.1 h
      · exact h3 h
    · exfalso
      push_neg at h1 h2
      rcases h with h | h | h | h
      · exact h h1
      · exact h2.1 h
      · exact h2.2.1 h
      · exact h3 h
  · intro ht hd1 hd2 hint
    have hne : _get_document_sources e1 ≠ _get_document_sources e2 := by
      intro heq
      rcases Finset.nonempty_iff_ne_empty.2 hd1 with ⟨x, hx⟩
      have : x ∈ _get_document_sources e1 ∩ _get_document_sources e2 := by
        rw [Finset.mem_inter, ← heq]
        exact ⟨hx, hx⟩
      rw [hint] at this
      exact absurd this (Finset.not_mem_empty x)
    unfold _should_create_comparison_relationship
    rw [if_neg (by simpa using ht),
      if_neg (by push_neg; exact ⟨hd1, hd2, hne⟩),
      if_neg (by rw [hint]; exact Finset.not_nonempty_empty)]
    by_cases hc : _extract_conflicting_attributes e1 e2 = []
    · rw [if_pos hc]
      simp [hc]
    · rw [if_neg hc]
      split_ifs with t1 t2
      · simp only [true_iff]
        exact ⟨hc, Or.inl t1⟩
      · simp only [true_iff]
        exact ⟨hc, Or.inr t2⟩
      · simp only [false_iff]
        rintro ⟨-, hc1 | hc2⟩
        · exact t1 hc1
        · exact t2 hc2

/-- Witness for `should_compare_spec`: for the type-mismatched pair
`(pyEnt, jvEnt)` the first clause yields `false`, and for `(tfA, tfB)`
the second clause yields `true` via the first tier. -/
theorem should_compare_spec_witness :
    (pyEnt.type ≠ jvEnt.type ∧
      (_should_create_comparison_relationship pyEnt jvEnt).1 = false) ∧
    ((_should_create_comparison_relationship tfA tfB).1 = true) :=
  ⟨⟨by with_unfolding_all decide,
      (should_compare_spec pyEnt jvEnt).1 (Or.inl (by with_unfolding_all decide))⟩,
    ((should_compare_spec tfA tfB).2 (by with_unfolding_all decide)
      (by with_unfolding_all decide) (by with_unfolding_all decide)
      (by with_unfolding_all decide)).2
      ⟨by with_unfolding_all decide,
        Or.inl ⟨by with_unfolding_all decide, by with_unfolding_all decide⟩⟩⟩

/-! ## Symmetric comparison relationships (claim C7) -/

/-- C7: `createComparisonRelationships` emits exactly two relationships
per accepted pair — forward then backward — each `compares_with`, each
with confidence `0.8` and `directional = false`. -/
theorem create_comparison_relationships_spec (now : Nat)
    (pairs : List (Entity × Entity × List String)) :
    (create_comparison_relationships now pairs).length = 2 * pairs.length
  ∧ ∀ i, i < pairs.length →
      ((create_comparison_relationships now pairs).getD (2 * i) default).from_entity
          = (pairs.getD i default).1.id
      ∧ ((create_comparison_relationships now pairs).getD (2 * i) default).to_entity
          = (pairs.getD i default).2.1.id
      ∧ ((create_comparison_relationships now pairs).getD (2 * i + 1) default).from_entity
          = (pairs.getD i default).2.1.id
      ∧ ((create_comparison_relationships now pairs).getD (2 * i + 1) default).to_entity
          = (pairs.getD i default).1.id
      ∧ ((create_comparison_relationships now pairs).getD (2 * i) default).predicate
          = RelationType.compares_with
      ∧ ((create_comparison_relationships now pairs).getD (2 * i + 1) default).predicate
          = RelationType.compares_with
      ∧ ((create_comparison_relationships now pairs).getD (2 * i) default).confidence
          = 8 / 10
      ∧ ((create_comparison_relationships now pairs).getD (2 * i + 1) default).confidence
          = 8 / 10
      ∧ ((create_comparison_relationships now pairs).getD (2 * i) default).directional
          = false
      ∧ ((create_comparison_relationships now pairs).getD (2 * i + 1) default).directional
          = false := by
  induction pairs with
  | nil => exact ⟨rfl, fun i hi => absurd hi (Nat.not_lt_zero i)⟩
  | cons p rest ih =>
    have hcons : create_comparison_relationships now (p :: rest) =
        ⟨p.1.id, p.2.1.id, RelationType.compares_with, 8 / 10,
          comparisonEvidence p.1 p.2.1, false, now⟩ ::
        ⟨p.2.1.id, p.1.id, RelationType.compares_with, 8 / 10,
          comparisonEvidence p.1 p.2.1, false, now⟩ ::
        create_comparison_relationships now rest := by
      simp [create_comparison_relationships]
    constructor
    · rw [hcons]
      simp only [List.length_cons, ih.1]
      omega
    · intro i hi
      match i with
      | 0 => rw [hcons]; exact ⟨rfl, rfl, rfl, rfl, rfl, rfl, rfl, rfl, rfl, rfl⟩
      | n + 1 =>
        have hn : n < rest.length := by simpa using Nat.lt_of_succ_lt_succ hi
        have e1 : 2 * (n + 1) = 2 * n + 1 + 1 := by omega
        rw [hcons, e1]
        simpa using ih.2 n hn

/-- Witness for `create_comparison_relationships_spec` at the single
accepted pair `(tfA, tfB)` (index `0`). -/
theorem create_comparison_relationships_spec_witness :
    (0 < [(tfA, tfB, ["Salience difference"])].length) ∧
      ((create_comparison_relationships 0
          [(tfA, tfB, ["Salience difference"])]).getD 0 default).confidence = 8 / 10 :=
  ⟨Nat.zero_lt_one,
    ((create_comparison_relationships_spec 0
      [(tfA, tfB, ["Salience difference"])]).2 0 Nat.zero_lt_one).2.2.2.2.2.2.1⟩

/-! ## Structural facts about the clustering loop -/

/-- A seed that merges with nothing absorbs nothing and leaves the
processed set unchanged. -/
theorem absorb_nomerge (seed : Entity) :
    ∀ (l : List Entity) (p : List String),
      (∀ e ∈ l, _should_merge_entities seed e = false) →
      absorb p seed l = ([], p) := by
  intro l
  induction l with
  | nil => intro p _; rfl
  | cons e rest ih =>
    intro p h
    have he := h e (List.mem_cons_self e rest)
    have hrest : ∀ x ∈ rest, _should_merge_entities seed x = false :=
      fun x hx => h x (List.mem_cons_of_mem e hx)
    by_cases hp : e.id ∈ p
    · simp only [absorb, if_pos hp]
      exact ih p hrest
    · simp only [absorb, if_neg hp, he, Bool.false_eq_true, if_false]
      exact ih p hrest

/-- Invariants of the candidate scan: the absorbed ids are distinct,
none of them was already processed, and the resulting processed set is
exactly the old one plus the absorbed ids. -/
theorem absorb_spec (seed : Entity) :
    ∀ (l : List Entity) (p : List String),
      ((absorb p seed l).1.map Entity.id).Nodup ∧
      (∀ x ∈ (absorb p seed l).1.map Entity.id, x ∉ p) ∧
      (∀ x, x ∈ (absorb p seed l).2 ↔
        x ∈ p ∨ x ∈ (absorb p seed l).1.map Entity.id) := by
  intro l
  induction l with
  | nil =>
    intro p
    refine ⟨List.nodup_nil, by simp [absorb], fun x => ?_⟩
    simp [absorb]
  | cons e rest ih =>
    intro p
    by_cases hp : e.id ∈ p
    · simpa only [absorb, if_pos hp] using ih p
    · by_cases hm : _should_merge_entities seed e
      · have ihe := ih (e.id :: p)
        simp only [absorb, if_neg hp, hm, if_true, List.map_cons]
        refine ⟨?_, ?_, ?_⟩
        · refine List.nodup_cons.2 ⟨?_, ihe.1⟩
          intro hmem
          exact absurd (List.mem_cons_self e.id p) (ihe.2.1 e.id hmem)
        · intro x hx
          rcases List.mem_cons.1 hx with rfl | hx
          · exact hp
          · exact fun hxp => (ihe.2.1 x hx) (List.mem_cons_of_mem _ hxp)
        · intro x
          rw [ihe.2.2 x, List.mem_cons, List.mem_cons]
          tauto
      · simp only [absorb, if_neg hp, hm, Bool.false_eq_true, if_false]
        exact ih p

/-- Invariants of the seed loop: the ids appearing across all groups are
distinct, none of them was already processed, the final processed set is
the old one plus all grouped ids, and every group is nonempty (it holds
its seed). -/
theorem buildGroups_spec :
    ∀ (l : List Entity) (p : List String),
      (((buildGroups p l).1.flatten).map Entity.id).Nodup ∧
      (∀ x ∈ ((buildGroups p l).1.flatten).map Entity.id, x ∉ p) ∧
      (∀ x, x ∈ (buildGroups p l).2 ↔
        x ∈ p ∨ x ∈ ((buildGroups p l).1.flatten).map Entity.id) ∧
      (∀ g ∈ (buildGroups p l).1, g ≠ []) := by
  intro l
  induction l with
  | nil =>
    intro p
    refine ⟨List.nodup_nil, by simp [buildGroups], fun x => by simp [buildGroups],
      by simp [buildGroups]⟩
  | cons e rest ih =>
    intro p
    by_cases hp : e.id ∈ p
    · simpa only [buildGroups, if_pos hp] using ih p
    · have ha := absorb_spec e rest (e.id :: p)
      have ihr := ih (absorb (e.id :: p) e rest).2
      simp only [buildGroups, if_neg hp, List.flatten_cons, List.map_append,
        List.map_cons]
      refine ⟨?_, ?_, ?_, ?_⟩
      · refine List.nodup_cons.2 ⟨?_, ?_⟩
        · intro hmem
          rcases List.mem_append.1 hmem with hmem | hmem
          · exact absurd (List.mem_cons_self e.id p) (ha.2.1 e.id hmem)
          · have : e.id ∈ (absorb (e.id :: p) e rest).2 :=
              (ha.2.2 e.id).2 (Or.inl (List.mem_cons_self e.id p))
            exact (ihr.2.1 e.id hmem) this
        · refine List.Nodup.append ha.1 ihr.1 ?_
          intro x hx1 hx2
          have hx2' : x ∈ (absorb (e.id :: p) e rest).2 :=
            (ha.2.2 x).2 (Or.inr hx1)
          exact (ihr.2.1 x hx2) hx2'
      · intro x hx
        rcases List.mem_cons.1 hx with rfl | hx
        · exact hp
        rcases List.mem_append.1 hx with hx | hx
        · exact fun hxp => (ha.2.1 x hx) (List.mem_cons_of_mem _ hxp)
        · intro hxp
          have : x ∈ (absorb (e.id :: p) e rest).2 :=
            (ha.2.2 x).2 (Or.inl (List.mem_cons_of_mem _ hxp))
          exact (ihr.2.1 x hx) this
      · intro x
        rw [ihr.2.2.1 x, ha.2.2 x]
        simp only [List.mem_cons, List.mem_append]
        tauto
      · intro g hg
        rcases List.mem_cons.1 hg with rfl | hg
        · exact List.cons_ne_nil e _
        · exact ihr.2.2.2 g hg

/-- Across buckets, the grouped ids stay distinct and disjoint from the
incoming processed set. -/
theorem bucketGroups_spec (es : List Entity) :
    ∀ (ts : List EntityType) (p : List String),
      (((bucketGroups es p ts).flatten).map Entity.id).Nodup ∧
      (∀ x ∈ ((bucketGroups es p ts).flatten).map Entity.id, x ∉ p) := by
  intro ts
  induction ts with
  | nil => intro p; exact ⟨List.nodup_nil, by simp [bucketGroups]⟩
  | cons t ts ih =>
    intro p
    have hb := buildGroups_spec (es.filter (fun e => e.type = t)) p
    have ihr := ih (buildGroups p (es.filter (fun e => e.type = t))).2
    simp only [bucketGroups, List.flatten_append, List.map_append]
    constructor
    · refine List.Nodup.append hb.1 ihr.1 ?_
      intro x hx1 hx2
      have : x ∈ (buildGroups p (es.filter (fun e => e.type = t))).2 :=
        (hb.2.2.1 x).2 (Or.inr hx1)
      exact (ihr.2 x hx2) this
    · intro x hx
      rcases List.mem_append.1 hx with hx | hx
      · exact hb.2.1 x hx
      · intro hxp
        have : x ∈ (buildGroups p (es.filter (fun e => e.type = t))).2 :=
          (hb.2.2.1 x).2 (Or.inl hxp)
        exact (ihr.2 x hx) this

/-- C10 (amended): at most one entity per id ever enters the merge
groups — the ids across all groups of a batch are pairwise distinct, any
further occurrence of an already-processed id being skipped both as a
seed and as a merge candidate. -/
theorem groups_ids_nodup (es : List Entity) :
    (((groupsOf es).flatten).map Entity.id).Nodup :=
  (bucketGroups_spec es (typesInOrder es) []).1

/-! ## The no-merge (idempotence) path -/

/-- With distinct unprocessed ids and no mergeable pair, every entity
seeds its own singleton group. -/
theorem buildGroups_nomerge :
    ∀ (l : List Entity) (p : List String),
      (l.map Entity.id).Nodup →
      (∀ e ∈ l, e.id ∉ p) →
      l.Pairwise (fun a b => _should_merge_entities a b = false) →
      buildGroups p l = (l.map (fun e => [e]), (l.map Entity.id).reverse ++ p) := by
  intro l
  induction l with
  | nil => intro p _ _ _; simp [buildGroups]
  | cons e rest ih =>
    intro p hnd hdisj hpw
    have hp : e.id ∉ p := hdisj e (List.mem_cons_self e rest)
    have hhead : ∀ b ∈ rest, _should_merge_entities e b = false :=
      (List.pairwise_cons.1 hpw).1
    have htail : rest.Pairwise (fun a b => _should_merge_entities a b = false) :=
      (List.pairwise_cons.1 hpw).2
    have hnd' : (rest.map Entity.id).Nodup := (List.nodup_cons.1 (by simpa using hnd)).2
    have hid : e.id ∉ rest.map Entity.id := (List.nodup_cons.1 (by simpa using hnd)).1
    have hdisj' : ∀ x ∈ rest, x.id ∉ e.id :: p := by
      intro x hx
      rw [List.mem_cons]
      push_neg
      refine ⟨?_, hdisj x (List.mem_cons_of_mem e hx)⟩
      intro hxe
      exact hid (hxe ▸ List.mem_map_of_mem Entity.id hx)
    simp only [buildGroups, if_neg hp, absorb_nomerge e rest (e.id :: p) hhead,
      ih (e.id :: p) hnd' hdisj' htail, List.map_cons, List.reverse_cons,
      List.append_assoc, List.singleton_append]

/-- `firstOccur` returns distinct elements, none of them already seen. -/
theorem firstOccur_nodup {α : Type} [DecidableEq α] :
    ∀ (l seen : List α),
      (firstOccur seen l).Nodup ∧ ∀ x ∈ firstOccur seen l, x ∉ seen := by
  intro l
  induction l with
  | nil => intro seen; exact ⟨List.nodup_nil, by simp [firstOccur]⟩
  | cons a l ih =>
    intro seen
    by_cases ha : a ∈ seen
    · simpa only [firstOccur, if_pos ha] using ih seen
    · have iha := ih (a :: seen)
      simp only [firstOccur, if_neg ha]
      refine ⟨List.nodup_cons.2 ⟨?_, iha.1⟩, ?_⟩
      · intro hmem
        exact iha.2 a hmem (List.mem_cons_self a seen)
      · intro x hx
        rcases List.mem_cons.1 hx with rfl | hx
        · exact ha
        · exact fun hxs => iha.2 x hx (List.mem_cons_of_mem a hxs)

/-- Everything in the input appears in `firstOccur` or was already seen. -/
theorem mem_firstOccur {α : Type} [DecidableEq α] :
    ∀ (l seen : List α) (x : α), x ∈ l → x ∈ firstOccur seen l ∨ x ∈ seen := by
  intro l
  induction l with
  | nil => intro seen x hx; exact absurd hx (List.not_mem_nil x)
  | cons a l ih =>
    intro seen x hx
    by_cases ha : a ∈ seen
    · rw [firstOccur, if_pos ha]
      rcases List.mem_cons.1 hx with rfl | hx
      · exact Or.inr ha
      · exact ih seen x hx
    · rw [firstOccur, if_neg ha]
      rcases List.mem_cons.1 hx with rfl | hx
      · exact Or.inl (List.mem_cons_self x _)
      · rcases ih (a :: seen) x hx with h | h
        · exact Or.inl (List.mem_cons_of_mem a h)
        · rcases List.mem_cons.1 h with rfl | h
          · exact Or.inl (List.mem_cons_self x _)
          · exact Or.inr h

/-- `firstOccur` of a list all of whose elements were seen is empty. -/
theorem firstOccur_subset_seen {α : Type} [DecidableEq α] :
    ∀ (l seen : List α), (∀ x ∈ l, x ∈ seen) → firstOccur seen l = [] := by
  intro l
  induction l with
  | nil => intro seen _; rfl
  | cons a l ih =>
    intro seen h
    rw [firstOccur, if_pos (h a (List.mem_cons_self a l))]
    exact ih seen (fun x hx => h x (List.mem_cons_of_mem a hx))

theorem typesInOrder_nodup (es : List Entity) : (typesInOrder es).Nodup := by
  unfold typesInOrder
  exact (firstOccur_nodup _ _).1

theorem type_mem_typesInOrder {es : List Entity} {e : Entity} (he : e ∈ es) :
    e.type ∈ typesInOrder es := by
  rcases mem_firstOccur (es.map (fun x => x.type)) [] e.type
      (List.mem_map_of_mem _ he) with h | h
  · exact h
  · exact absurd h (List.not_mem_nil _)

/-- Per-bucket id injectivity transfer: with globally distinct ids, two
batch members with the same id are the same entity. -/
theorem id_inj_of_nodup {es : List Entity} (hnd : (es.map Entity.id).Nodup)
    {a b : Entity} (ha : a ∈ es) (hb : b ∈ es) (h : a.id = b.id) : a = b :=
  List.inj_on_of_nodup_map hnd ha hb h

/-- Bucket iteration when nothing merges: every bucket dissolves into
singleton groups, in bucket order. -/
theorem bucketGroups_nomerge (es : List Entity)
    (hnd : (es.map Entity.id).Nodup)
    (hpw : es.Pairwise (fun a b => _should_merge_entities a b = false)) :
    ∀ (ts : List EntityType) (p : List String), ts.Nodup →
      (∀ e ∈ es, e.type ∈ ts → e.id ∉ p) →
      bucketGroups es p ts =
        ts.flatMap (fun t =>
          (es.filter (fun e => e.type = t)).map (fun e => [e])) := by
  intro ts
  induction ts with
  | nil => intro p _ _; simp [bucketGroups]
  | cons t ts ih =>
    intro p hts hinv
    have hsub : List.Sublist (es.filter (fun e => e.type = t)) es :=
      List.filter_sublist es
    have hndb : ((es.filter (fun e => e.type = t)).map Entity.id).Nodup :=
      (hsub.map Entity.id).nodup hnd
    have hdisj : ∀ e ∈ es.filter (fun e => e.type = t), e.id ∉ p := by
      intro e he
      have hm := List.mem_filter.1 he
      exact hinv e hm.1 (by
        have : e.type = t := by simpa using hm.2
        rw [this]
        exact List.mem_cons_self t ts)
    have hpwb := hpw.sublist hsub
    have hbg := buildGroups_nomerge (es.filter (fun e => e.type = t)) p hndb hdisj hpwb
    have hinv' : ∀ e ∈ es, e.type ∈ ts → e.id ∉
        ((es.filter (fun e => e.type = t)).map Entity.id).reverse ++ p := by
      intro e he het
      rw [List.mem_append, List.mem_reverse]
      push_neg
      constructor
      · intro hmem
        rcases List.mem_map.1 hmem with ⟨b, hb, hid⟩
        have hbm := List.mem_filter.1 hb
        have : e = b := id_inj_of_nodup hnd he hbm.1 hid.symm
        have hbt : b.type = t := by simpa using hbm.2
        rw [this, hbt] at het
        exact (List.nodup_cons.1 hts).1 het
      · exact hinv e he (List.mem_cons_of_mem t het)
    rw [List.flatMap_cons, bucketGroups, hbg,
      ih (((es.filter (fun e => e.type = t)).map Entity.id).reverse ++ p)
        (List.nodup_cons.1 hts).2 hinv']

/-- C3 (amended): with pairwise-distinct ids and no mergeable ordered
pair, canonicalization returns exactly the input entities, unchanged,
stably partitioned by entity type (types in order of first appearance,
input order within each type); in particular, when all entities share
one type the output is the input list itself. -/
theorem canonicalize_nomerge (now : Nat) (es : List Entity)
    (hnd : (es.map Entity.id).Nodup)
    (hpw : es.Pairwise (fun a b => _should_merge_entities a b = false)) :
    canonicalize_entities now es =
      (typesInOrder es).flatMap (fun t => es.filter (fun e => e.type = t))
  ∧ ((∀ e1 ∈ es, ∀ e2 ∈ es, e1.type = e2.type) →
      canonicalize_entities now es = es) := by
  have hmain : canonicalize_entities now es =
      (typesInOrder es).flatMap (fun t => es.filter (fun e => e.type = t)) := by
    unfold canonicalize_entities groupsOf
    rw [bucketGroups_nomerge es hnd hpw (typesInOrder es) [] (typesInOrder_nodup es)
      (by simp)]
    rw [List.map_flatMap]
    refine List.flatMap_congr ?_
    intro t _
    rw [List.map_map]
    calc List.map (mergeGroupEntity now ∘ fun e => [e])
          (es.filter (fun e => e.type = t))
        = List.map (fun e => e) (es.filter (fun e => e.type = t)) :=
          List.map_congr_left (fun a _ => rfl)
      _ = es.filter (fun e => e.type = t) := List.map_id' _
  refine ⟨hmain, ?_⟩
  intro hty
  cases es with
  | nil => rfl
  | cons e0 rest =>
    have htypes : typesInOrder (e0 :: rest) = [e0.type] := by
      unfold typesInOrder
      simp only [List.map_cons]
      rw [firstOccur, if_neg (List.not_mem_nil e0.type)]
      rw [firstOccur_subset_seen]
      intro x hx
      rcases List.mem_map.1 hx with ⟨b, hb, rfl⟩
      rw [hty b (List.mem_cons_of_mem e0 hb) e0 (List.mem_cons_self e0 rest)]
      exact List.mem_cons_self _ _
    rw [hmain, htypes, List.flatMap_cons, List.flatMap_nil, List.append_nil]
    rw [List.filter_eq_self]
    intro a ha
    simp [hty a ha e0 (List.mem_cons_self e0 rest)]

/-! ## What the groups contain (permutation accounting) -/

/-- The candidate scan absorbs exactly the unprocessed later entities
that merge with the seed, in order. -/
theorem absorb_filter (seed : Entity) :
    ∀ (l : List Entity) (p : List String), (l.map Entity.id).Nodup →
      (absorb p seed l).1 =
        l.filter (fun e => !(decide (e.id ∈ p)) && _should_merge_entities seed e) := by
  intro l
  induction l with
  | nil => intro p _; rfl
  | cons e rest ih =>
    intro p hnd
    have hnd' : (rest.map Entity.id).Nodup := (List.nodup_cons.1 (by simpa using hnd)).2
    have hid : e.id ∉ rest.map Entity.id := (List.nodup_cons.1 (by simpa using hnd)).1
    by_cases hp : e.id ∈ p
    · rw [List.filter_cons_of_neg (by simp [hp])]
      simp only [absorb, if_pos hp]
      exact ih p hnd'
    · by_cases hm : _should_merge_entities seed e
      · rw [List.filter_cons_of_pos (by simp [hp, hm])]
        simp only [absorb, if_neg hp, hm, if_true]
        rw [ih (e.id :: p) hnd']
        refine congrArg (List.cons e) (List.filter_congr ?_)
        intro x hx
        have hxe : x.id ≠ e.id := by
          intro hxe
          exact hid (hxe ▸ List.mem_map_of_mem Entity.id hx)
        simp [List.mem_cons, hxe]
      · rw [List.filter_cons_of_neg (by simp [hp, hm])]
        simp only [absorb, if_neg hp, hm, Bool.false_eq_true, if_false]
        exact ih p hnd'

/-- The entities distributed into groups by one bucket pass are exactly
the unprocessed ones, as a permutation. -/
theorem buildGroups_flatten_perm :
    ∀ (l : List Entity) (p : List String), (l.map Entity.id).Nodup →
      List.Perm ((buildGroups p l).1.flatten)
        (l.filter (fun e => !(decide (e.id ∈ p)))) := by
  intro l
  induction l with
  | nil => intro p _; simp [buildGroups]
  | cons e rest ih =>
    intro p hnd
    have hnd' : (rest.map Entity.id).Nodup := (List.nodup_cons.1 (by simpa using hnd)).2
    have hid : e.id ∉ rest.map Entity.id := (List.nodup_cons.1 (by simpa using hnd)).1
    by_cases hp : e.id ∈ p
    · rw [List.filter_cons_of_neg (by simp [hp])]
      simp only [buildGroups, if_pos hp]
      exact ih p hnd'
    · have hg := absorb_filter e rest (e.id :: p) hnd'
      have hgp : (absorb (e.id :: p) e rest).1 =
          rest.filter (fun x => !(decide (x.id ∈ p)) && _should_merge_entities e x) := by
        rw [hg]
        refine List.filter_congr ?_
        intro x hx
        have hxe : x.id ≠ e.id := by
          intro hxe
          exact hid (hxe ▸ List.mem_map_of_mem Entity.id hx)
        simp [List.mem_cons, hxe]
      have hrest := ih (absorb (e.id :: p) e rest).2 hnd'
      have hrest' : List.Perm ((buildGroups (absorb (e.id :: p) e rest).2 rest).1.flatten)
          (rest.filter (fun x => !(decide (x.id ∈ p)) &&
            !(_should_merge_entities e x))) := by
        refine hrest.trans (List.Perm.of_eq (List.filter_congr ?_))
        intro x hx
        have hxe : x.id ≠ e.id := by
          intro hxe
          exact hid (hxe ▸ List.mem_map_of_mem Entity.id hx)
        have hmem := (absorb_spec e rest (e.id :: p)).2.2 x.id
        have hcase : x.id ∈ (absorb (e.id :: p) e rest).2 ↔
            x.id ∈ p ∨ _should_merge_entities e x = true := by
          rw [hmem, hgp]
          constructor
          · rintro (hc | hc)
            · rcases List.mem_cons.1 hc with hc | hc
              · exact absurd hc hxe
              · exact Or.inl hc
            · rcases List.mem_map.1 hc with ⟨b, hb, hbid⟩
              have hbr := List.mem_filter.1 hb
              have hxb : x = b := List.inj_on_of_nodup_map hnd' hx hbr.1 hbid.symm
              have hbm := hbr.2
              simp only [Bool.and_eq_true] at hbm
              exact Or.inr (hxb ▸ hbm.2)
          · rintro (hc | hc)
            · exact Or.inl (List.mem_cons_of_mem _ hc)
            · by_cases hxp : x.id ∈ p
              · exact Or.inl (List.mem_cons_of_mem _ hxp)
              · refine Or.inr (List.mem_map_of_mem Entity.id ?_)
                rw [List.mem_filter]
                exact ⟨hx, by simp [hxp, hc]⟩
        by_cases hxp : x.id ∈ p
        · have hin : x.id ∈ (absorb (e.id :: p) e rest).2 := hcase.2 (Or.inl hxp)
          simp [hin, hxp]
        · by_cases hsm : _should_merge_entities e x
          · have hin : x.id ∈ (absorb (e.id :: p) e rest).2 := hcase.2 (Or.inr hsm)
            simp [hin, hxp, hsm]
          · have hout : x.id ∉ (absorb (e.id :: p) e rest).2 := by
              intro hin
              rcases hcase.1 hin with hc | hc
              · exact hxp hc
              · exact hsm hc
            simp [hout, hxp, hsm]
      rw [List.filter_cons_of_pos (by simp [hp])]
      simp only [buildGroups, if_neg hp, List.flatten_cons]
      rw [hgp, List.cons_append]
      refine List.Perm.cons e ?_
      refine (List.Perm.append (List.Perm.refl _) hrest').trans ?_
      have hsplit := List.filter_append_perm
        (fun x => _should_merge_entities e x)
        (rest.filter (fun x => !(decide (x.id ∈ p))))
      rw [List.filter_filter, List.filter_filter] at hsplit
      refine List.Perm.trans ?_ hsplit
      refine List.Perm.append ?_ ?_
      · exact List.Perm.of_eq (List.filter_congr (fun x _ => Bool.and_comm _ _))
      · exact List.Perm.of_eq (List.filter_congr (fun x _ => Bool.and_comm _ _))

/-- Across buckets: with globally distinct ids, the grouped entities are
a permutation of the per-type buckets. -/
theorem bucketGroups_flatten_perm (es : List Entity)
    (hnd : (es.map Entity.id).Nodup) :
    ∀ (ts : List EntityType) (p : List String), ts.Nodup →
      (∀ e ∈ es, e.type ∈ ts → e.id ∉ p) →
      List.Perm ((bucketGroups es p ts).flatten)
        (ts.flatMap (fun t => es.filter (fun e => e.type = t))) := by
  intro ts
  induction ts with
  | nil => intro p _ _; simp [bucketGroups]
  | cons t ts ih =>
    intro p hts hinv
    have hsub : List.Sublist (es.filter (fun e => e.type = t)) es :=
      List.filter_sublist es
    have hndb : ((es.filter (fun e => e.type = t)).map Entity.id).Nodup :=
      (hsub.map Entity.id).nodup hnd
    have hbp := buildGroups_flatten_perm (es.filter (fun e => e.type = t)) p hndb
    have hbucket : (es.filter (fun e => e.type = t)).filter
        (fun e => !(decide (e.id ∈ p))) = es.filter (fun e => e.type = t) := by
      rw [List.filter_eq_self]
      intro a ha
      have ham := List.mem_filter.1 ha
      have hat : a.type = t := by simpa using ham.2
      simp [hinv a ham.1 (hat ▸ List.mem_cons_self t ts)]
    rw [hbucket] at hbp
    have hinv' : ∀ e ∈ es, e.type ∈ ts → e.id ∉
        (buildGroups p (es.filter (fun e => e.type = t))).2 := by
      intro e he het hin
      have hmem := (buildGroups_spec (es.filter (fun e => e.type = t)) p).2.2.1 e.id
      rcases hmem.1 hin with hc | hc
      · exact hinv e he (List.mem_cons_of_mem t het) hc
      · rcases List.mem_map.1 hc with ⟨b, hb, hbid⟩
        have hbb : b ∈ es.filter (fun e => e.type = t) := hbp.mem_iff.1 hb
        have hbm := List.mem_filter.1 hbb
        have heb : e = b := id_inj_of_nodup hnd he hbm.1 hbid.symm
        have hbt : b.type = t := by simpa using hbm.2
        rw [heb, hbt] at het
        exact (List.nodup_cons.1 hts).1 het
    simp only [bucketGroups, List.flatten_append, List.flatMap_cons]
    exact List.Perm.append hbp
      (ih (buildGroups p (es.filter (fun e => e.type = t))).2
        (List.nodup_cons.1 hts).2 hinv')

/-- Concatenating the per-type buckets (over distinct types covering the
batch) permutes the batch. -/
theorem flatMap_filter_types_perm :
    ∀ (ts : List EntityType), ts.Nodup → ∀ (es : List Entity),
      (∀ e ∈ es, e.type ∈ ts) →
      List.Perm (ts.flatMap (fun t => es.filter (fun e => e.type = t))) es := by
  intro ts
  induction ts with
  | nil =>
    intro _ es h
    have : es = [] := by
      rcases es with _ | ⟨e, es⟩
      · rfl
      · exact absurd (h e (List.mem_cons_self e es)) (List.not_mem_nil _)
    simp [this]
  | cons t ts ih =>
    intro hts es h
    have htts : t ∉ ts := (List.nodup_cons.1 hts).1
    have htail : ∀ u ∈ ts, es.filter (fun e => e.type = u) =
        (es.filter (fun e => !(decide (e.type = t)))).filter
          (fun e => e.type = u) := by
      intro u hu
      rw [List.filter_filter]
      refine (List.filter_congr ?_).symm
      intro x _
      have hut : ¬ u = t := fun hc => htts (hc ▸ hu)
      by_cases hx : x.type = u
      · have hxt : ¬ x.type = t := fun hc => hut ((hc ▸ hx : t = u).symm)
        simp [hx, hxt, hut]
      · simp [hx]
    have ihr := ih (List.nodup_cons.1 hts).2
      (es.filter (fun e => !(decide (e.type = t))))
      (by
        intro e he
        have hem := List.mem_filter.1 he
        have hne : ¬ e.type = t := by simpa using hem.2
        rcases List.mem_cons.1 (h e hem.1) with hc | hc
        · exact absurd hc hne
        · exact hc)
    have hcongr : ts.flatMap (fun u => es.filter (fun e => e.type = u)) =
        ts.flatMap (fun u => (es.filter (fun e => !(decide (e.type = t)))).filter
          (fun e => e.type = u)) :=
      List.flatMap_congr htail
    rw [List.flatMap_cons, hcongr]
    refine List.Perm.trans (List.Perm.append (List.Perm.refl _) ihr) ?_
    exact List.filter_append_perm (fun e => decide (e.type = t)) es

/-- Every group produced by the bucket iteration is nonempty. -/
theorem bucketGroups_nonempty (es : List Entity) :
    ∀ (ts : List EntityType) (p : List String),
      ∀ g ∈ bucketGroups es p ts, g ≠ [] := by
  intro ts
  induction ts with
  | nil => intro p g hg; simp [bucketGroups] at hg
  | cons t ts ih =>
    intro p g hg
    rcases List.mem_append.1 hg with hg | hg
    · exact (buildGroups_spec (es.filter (fun e => e.type = t)) p).2.2.2 g hg
    · exact ih _ g hg

/-- For nonempty groups, the total size splits as one survivor per group
plus the per-group shrinkage counted only on groups of size `> 1`. -/
theorem sum_sizes_eq (gs : List (List Entity)) (h : ∀ g ∈ gs, g ≠ []) :
    (gs.map List.length).sum =
      gs.length + ((gs.filter (fun g => 1 < g.length)).map
        (fun g => g.length - 1)).sum := by
  induction gs with
  | nil => rfl
  | cons g gs ih =>
    have hg : g ≠ [] := h g (List.mem_cons_self g gs)
    have hlen : 1 ≤ g.length := by
      rcases g with _ | ⟨a, g⟩
      · exact absurd rfl hg
      · simp
    have ihr := ih (fun x hx => h x (List.mem_cons_of_mem g hx))
    by_cases h1 : 1 < g.length
    · rw [List.map_cons, List.sum_cons, List.filter_cons_of_pos (by simpa using h1),
        List.map_cons, List.sum_cons, List.length_cons, ihr]
      omega
    · rw [List.map_cons, List.sum_cons, List.filter_cons_of_neg (by simpa using h1),
        List.length_cons, ihr]
      omega

/-- C8 (amended): for batches with pairwise-distinct ids, the canonical
output has exactly one entity per merge group, so its length is the
input length minus `Σ (groupSize − 1)` over the groups of size `> 1`. -/
theorem canonicalize_length (now : Nat) (es : List Entity)
    (hnd : (es.map Entity.id).Nodup) :
    (canonicalize_entities now es).length = (groupsOf es).length
  ∧ (canonicalize_entities now es).length =
      es.length - (((groupsOf es).filter (fun g => 1 < g.length)).map
        (fun g => g.length - 1)).sum := by
  have hlen1 : (canonicalize_entities now es).length = (groupsOf es).length :=
    List.length_map _ _
  have hperm : List.Perm ((groupsOf es).flatten) es :=
    (bucketGroups_flatten_perm es hnd (typesInOrder es) [] (typesInOrder_nodup es)
      (by simp)).trans
      (flatMap_filter_types_perm (typesInOrder es) (typesInOrder_nodup es) es
        (fun e he => type_mem_typesInOrder he))
  have hsum : ((groupsOf es).map List.length).sum = es.length := by
    rw [← hperm.length_eq]
    exact (List.length_flatten _).symm
  have hsplit := sum_sizes_eq (groupsOf es) (bucketGroups_nonempty es _ _)
  refine ⟨hlen1, ?_⟩
  rw [hlen1]
  omega

/-! ## Merge arithmetic (claims C2 and C5) -/

theorem sortBySalienceDesc_perm (l : List Entity) :
    List.Perm (sortBySalienceDesc l) l :=
  List.perm_insertionSort _ l

/-- C2 (amended): for every merge group of two or more entities, a
string is a merged alias exactly when it is a declared alias of some
member, or the name of a non-primary member whose lowercased name
differs from the primary's lowercased name; the merged list is the
deduplicated (by exact string equality) sorted presentation of that set. -/
theorem merged_aliases_spec (now : Nat) (e1 e2 : Entity) (rest : List Entity) :
    ∃ m, _merge_entities now (e1 :: e2 :: rest) = some m ∧
      m.aliases.Nodup ∧
      List.Sorted (fun a b : String => a ≤ b) m.aliases ∧
      (∀ s : String, s ∈ m.aliases ↔
        ((∃ e ∈ (e1 :: e2 :: rest), s ∈ e.aliases) ∨
         (∃ e ∈ (sortBySalienceDesc (e1 :: e2 :: rest)).tail,
            s = e.name ∧ pyLower e.name ≠
              pyLower ((sortBySalienceDesc (e1 :: e2 :: rest)).headD default).name))) := by
  refine ⟨mergeCore now (e1 :: e2 :: rest), rfl, ?_, ?_, ?_⟩
  · have hnd : ((((sortBySalienceDesc (e1 :: e2 :: rest)).headD default).aliases ++
        (sortBySalienceDesc (e1 :: e2 :: rest)).tail.flatMap (fun e =>
          (if pyLower e.name ≠
              pyLower ((sortBySalienceDesc (e1 :: e2 :: rest)).headD default).name
            then [e.name] else []) ++ e.aliases)).dedup).Nodup :=
      List.nodup_dedup _
    exact ((List.perm_insertionSort _ _).nodup_iff).2 hnd
  · exact List.sorted_insertionSort _ _
  · intro s
    show s ∈ mergedAliases (sortBySalienceDesc (e1 :: e2 :: rest)) ↔ _
    have hne : sortBySalienceDesc (e1 :: e2 :: rest) ≠ [] := by
      intro hc
      have := (sortBySalienceDesc_perm (e1 :: e2 :: rest)).length_eq
      rw [hc] at this
      simp at this
    obtain ⟨p, tl, hs⟩ : ∃ p tl, sortBySalienceDesc (e1 :: e2 :: rest) = p :: tl := by
      rcases hsort : sortBySalienceDesc (e1 :: e2 :: rest) with _ | ⟨p, tl⟩
      · exact absurd hsort hne
      · exact ⟨p, tl, rfl⟩
    have hmemsort : ∀ x : Entity, x ∈ sortBySalienceDesc (e1 :: e2 :: rest) ↔
        x ∈ (e1 :: e2 :: rest) :=
      fun x => (sortBySalienceDesc_perm (e1 :: e2 :: rest)).mem_iff
    rw [mergedAliases, hs]
    simp only [sortStrings]
    rw [(List.perm_insertionSort (fun a b : String => a ≤ b) _).mem_iff,
      List.mem_dedup, List.mem_append]
    simp only [List.headD_cons, List.tail_cons, List.mem_flatMap, List.mem_append]
    constructor
    · rintro (hp | ⟨e, he, hin | hal⟩)
      · refine Or.inl ⟨p, ?_, hp⟩
        rw [← hmemsort, hs]
        exact List.mem_cons_self p tl
      · rcases Classical.em (pyLower e.name ≠ pyLower p.name) with hcond | hcond
        · rw [if_pos hcond] at hin
          rcases List.mem_singleton.1 hin with rfl
          exact Or.inr ⟨e, he, rfl, hcond⟩
        · rw [if_neg hcond] at hin
          exact absurd hin (List.not_mem_nil s)
      · refine Or.inl ⟨e, ?_, hal⟩
        rw [← hmemsort, hs]
        exact List.mem_cons_of_mem p he
    · rintro (⟨e, he, hal⟩ | ⟨e, he, rfl, hcond⟩)
      · rw [← hmemsort e, hs] at he
        rcases List.mem_cons.1 he with rfl | he
        · exact Or.inl hal
        · exact Or.inr ⟨e, he, Or.inr hal⟩
      · exact Or.inr ⟨e, he, Or.inl
          (by rw [if_pos hcond]; exact List.mem_singleton.2 rfl)⟩

/-- Witness for `merged_aliases_spec`: the Example B style group
`["Machine Learning" with alias "ML", "ML"]` (no binder hypotheses are
needed, the witness instantiates the existential statement). -/
theorem merged_aliases_spec_witness :
    ∃ m, _merge_entities 0
        [⟨"ml1", "Machine Learning", .concept, ["ML"], none, 9 / 10,
          [⟨"docA", 0, 10⟩], "", 0, 0⟩,
         ⟨"ml2", "ML", .concept, [], none, 7 / 10, [⟨"docB", 0, 10⟩], "", 0, 0⟩]
        = some m ∧
      m.aliases.Nodup ∧
      List.Sorted (fun a b : String => a ≤ b) m.aliases ∧
      (∀ s : String, s ∈ m.aliases ↔
        ((∃ e ∈ [⟨"ml1", "Machine Learning", .concept, ["ML"], none, 9 / 10,
            [⟨"docA", 0, 10⟩], "", 0, 0⟩,
           (⟨"ml2", "ML", .concept, [], none, 7 / 10, [⟨"docB", 0, 10⟩], "", 0,
            0⟩ : Entity)], s ∈ e.aliases) ∨
         (∃ e ∈ (sortBySalienceDesc [⟨"ml1", "Machine Learning", .concept, ["ML"],
              none, 9 / 10, [⟨"docA", 0, 10⟩], "", 0, 0⟩,
            ⟨"ml2", "ML", .concept, [], none, 7 / 10, [⟨"docB", 0, 10⟩], "", 0,
              0⟩]).tail,
            s = e.name ∧ pyLower e.name ≠
              pyLower ((sortBySalienceDesc [⟨"ml1", "Machine Learning", .concept,
                  ["ML"], none, 9 / 10, [⟨"docA", 0, 10⟩], "", 0, 0⟩,
                ⟨"ml2", "ML", .concept, [], none, 7 / 10, [⟨"docB", 0, 10⟩], "",
                  0, 0⟩]).headD default).name))) :=
  merged_aliases_spec 0 _ _ _

/-- C5: for a nonempty group whose members all have salience in `[0, 1]`
and nonempty source spans, the merged salience stays in `[0, 1]`. -/
theorem merged_salience_bound (now : Nat) (g : List Entity) (hne : g ≠ [])
    (hval : ∀ e ∈ g, 0 ≤ e.salience ∧ e.salience ≤ 1 ∧ e.source_spans ≠ []) :
    ∃ m, _merge_entities now g = some m ∧ 0 ≤ m.salience ∧ m.salience ≤ 1 := by
  match g, hne with
  | [], h => exact absurd rfl h
  | [e], _ =>
    exact ⟨e, rfl, (hval e (List.mem_singleton.2 rfl)).1,
      (hval e (List.mem_singleton.2 rfl)).2.1⟩
  | e1 :: e2 :: rest, _ =>
    refine ⟨mergeCore now (e1 :: e2 :: rest), rfl, ?_⟩
    show 0 ≤ mergedSalience (sortBySalienceDesc (e1 :: e2 :: rest)) ∧
      mergedSalience (sortBySalienceDesc (e1 :: e2 :: rest)) ≤ 1
    have hmemsort : ∀ x : Entity, x ∈ sortBySalienceDesc (e1 :: e2 :: rest) →
        x ∈ (e1 :: e2 :: rest) :=
      fun x hx => (sortBySalienceDesc_perm (e1 :: e2 :: rest)).mem_iff.1 hx
    obtain ⟨p, tl, hs⟩ : ∃ p tl, sortBySalienceDesc (e1 :: e2 :: rest) = p :: tl := by
      rcases hsort : sortBySalienceDesc (e1 :: e2 :: rest) with _ | ⟨p, tl⟩
      · have := (sortBySalienceDesc_perm (e1 :: e2 :: rest)).length_eq
        rw [hsort] at this
        simp at this
      · exact ⟨p, tl, rfl⟩
    have hp : p ∈ sortBySalienceDesc (e1 :: e2 :: rest) := by
      rw [hs]; exact List.mem_cons_self p tl
    have hpspans : p.source_spans ≠ [] := (hval p (hmemsort p hp)).2.2
    have hspans : 0 < (mergedSpans (sortBySalienceDesc (e1 :: e2 :: rest))).length := by
      rw [mergedSpans, hs]
      simp only [List.headD_cons, List.length_append]
      have : 0 < p.source_spans.length := List.length_pos.2 hpspans
      omega
    have hw1 : ∀ e ∈ sortBySalienceDesc (e1 :: e2 :: rest), (1 : ℚ) ≤ spanWeight e := by
      intro e he
      have hes : e.source_spans ≠ [] := (hval e (hmemsort e he)).2.2
      rw [spanWeight, if_neg hes]
      have : 1 ≤ e.source_spans.length := List.length_pos.2 hes
      exact_mod_cast this
    have hw0 : ∀ e ∈ sortBySalienceDesc (e1 :: e2 :: rest), (0 : ℚ) ≤ spanWeight e :=
      fun e he => le_trans zero_le_one (hw1 e he)
    have htw : 0 < ((sortBySalienceDesc (e1 :: e2 :: rest)).map spanWeight).sum := by
      refine List.sum_pos _ ?_ ?_
      · intro x hx
        rcases List.mem_map.1 hx with ⟨e, he, rfl⟩
        exact lt_of_lt_of_le zero_lt_one (hw1 e he)
      · rw [hs]; simp
    have hwsum0 : 0 ≤ ((sortBySalienceDesc (e1 :: e2 :: rest)).map
        (fun e => e.salience * spanWeight e)).sum := by
      refine List.sum_nonneg ?_
      intro x hx
      rcases List.mem_map.1 hx with ⟨e, he, rfl⟩
      exact mul_nonneg (hval e (hmemsort e he)).1 (hw0 e he)
    have hwsumle : ((sortBySalienceDesc (e1 :: e2 :: rest)).map
        (fun e => e.salience * spanWeight e)).sum ≤
        ((sortBySalienceDesc (e1 :: e2 :: rest)).map spanWeight).sum := by
      refine List.sum_le_sum ?_
      intro e he
      exact mul_le_of_le_one_left (hw0 e he) (hval e (hmemsort e he)).2.1
    have hbase0 : 0 ≤ ((sortBySalienceDesc (e1 :: e2 :: rest)).map
        (fun e => e.salience * spanWeight e)).sum /
        ((sortBySalienceDesc (e1 :: e2 :: rest)).map spanWeight).sum :=
      div_nonneg hwsum0 (le_of_lt htw)
    have hbase1 : ((sortBySalienceDesc (e1 :: e2 :: rest)).map
        (fun e => e.salience * spanWeight e)).sum /
        ((sortBySalienceDesc (e1 :: e2 :: rest)).map spanWeight).sum ≤ 1 :=
      (div_le_one htw).2 hwsumle
    have hdc : 1 ≤ documentCount (sortBySalienceDesc (e1 :: e2 :: rest)) := by
      have hspan0 : (mergedSpans (sortBySalienceDesc (e1 :: e2 :: rest))) ≠ [] := by
        intro hcc
        rw [hcc] at hspans
        simp at hspans
      rw [documentCount]
      refine List.length_pos.2 ?_
      intro hc
      rcases hsp : mergedSpans (sortBySalienceDesc (e1 :: e2 :: rest)) with _ | ⟨s0, ss⟩
      · exact hspan0 hsp
      · have h1 : s0.doc_id ∈ (mergedSpans
            (sortBySalienceDesc (e1 :: e2 :: rest))).map (fun s => s.doc_id) := by
          rw [hsp]
          exact List.mem_map_of_mem (fun s => s.doc_id) (List.mem_cons_self s0 ss)
        have h2 := List.mem_dedup.2 h1
        rw [hc] at h2
        exact absurd h2 (List.not_mem_nil _)
    have hbonus : 0 ≤ crossDocumentBonus (sortBySalienceDesc (e1 :: e2 :: rest)) := by
      rw [crossDocumentBonus]
      refine le_min (by norm_num) ?_
      have : (1 : ℚ) ≤ (documentCount (sortBySalienceDesc (e1 :: e2 :: rest)) : ℚ) := by
        exact_mod_cast hdc
      have h1 : (0 : ℚ) ≤
          (documentCount (sortBySalienceDesc (e1 :: e2 :: rest)) : ℚ) - 1 := by
        linarith
      positivity
    rw [mergedSalience, if_pos hspans, if_pos htw]
    constructor
    · exact le_min (by norm_num) (add_nonneg hbase0 hbonus)
    · exact min_le_left _ _

/-- Witness for `merged_salience_bound` at the group `[tfA, tfB]`. -/
theorem merged_salience_bound_witness :
    (([tfA, tfB] : List Entity) ≠ [] ∧
      ∀ e ∈ ([tfA, tfB] : List Entity),
        0 ≤ e.salience ∧ e.salience ≤ 1 ∧ e.source_spans ≠ []) ∧
    (∃ m, _merge_entities 0 [tfA, tfB] = some m ∧
      0 ≤ m.salience ∧ m.salience ≤ 1) :=
  ⟨⟨by simp, by with_unfolding_all decide⟩,
    merged_salience_bound 0 [tfA, tfB] (by simp) (by with_unfolding_all decide)⟩

/-- Witness for `canonicalize_length` on the two-entity batch
`[tfA, tfB]`, which forms a single merge group of size 2. -/
theorem canonicalize_length_witness :
    ((([tfA, tfB] : List Entity).map Entity.id).Nodup) ∧
      (canonicalize_entities 0 [tfA, tfB]).length = (groupsOf [tfA, tfB]).length ∧
      (canonicalize_entities 0 [tfA, tfB]).length =
        ([tfA, tfB] : List Entity).length -
          (((groupsOf [tfA, tfB]).filter (fun g => 1 < g.length)).map
            (fun g => g.length - 1)).sum :=
  ⟨by with_unfolding_all decide,
    (canonicalize_length 0 [tfA, tfB] (by with_unfolding_all decide)).1,
    (canonicalize_length 0 [tfA, tfB] (by with_unfolding_all decide)).2⟩

/-! ## Seed-only clustering (claim C4) -/

/-- C4: membership is decided against the seed only.  For same-typed
`A, B, C` (distinct ids) with `shouldMerge(A,B)`, `shouldMerge(B,C)` and
`¬shouldMerge(A,C)`, the batch `[A, B, C]` forms exactly the two groups
`[A, B]` and `[C]` — `C` is not pulled in through `B`. -/
theorem seed_only_clustering (now : Nat) (A B C : Entity)
    (hTB : B.type = A.type) (hTC : C.type = A.type)
    (hAB : A.id ≠ B.id) (hAC : A.id ≠ C.id) (hBC : B.id ≠ C.id)
    (hmAB : _should_merge_entities A B = true)
    (hmBC : _should_merge_entities B C = true)
    (hmAC : _should_merge_entities A C = false) :
    groupsOf [A, B, C] = [[A, B], [C]]
  ∧ canonicalize_entities now [A, B, C] = [mergeCore now [A, B], C] := by
  have hBA : B.id ≠ A.id := hAB.symm
  have hCA : C.id ≠ A.id := hAC.symm
  have hCB : C.id ≠ B.id := hBC.symm
  have htypes : typesInOrder [A, B, C] = [A.type] := by
    simp [typesInOrder, firstOccur, hTB, hTC]
  have hbucket : ([A, B, C] : List Entity).filter (fun e => e.type = A.type)
      = [A, B, C] := by
    simp [List.filter, hTB, hTC]
  have hgroups : groupsOf [A, B, C] = [[A, B], [C]] := by
    rw [groupsOf, htypes]
    simp only [bucketGroups, hbucket]
    simp [buildGroups, absorb, hBA, hCA, hCB, hmAB, hmAC,
      List.mem_cons, List.mem_singleton]
  exact ⟨hgroups, by rw [canonicalize_entities, hgroups]; rfl⟩

/-- Witness for `seed_only_clustering` on the concrete similarity chain
`chainA ~ chainB ~ chainC` with `chainA ≁ chainC`. -/
theorem seed_only_clustering_witness :
    (chainB.type = chainA.type ∧ chainC.type = chainA.type ∧
      chainA.id ≠ chainB.id ∧ chainA.id ≠ chainC.id ∧ chainB.id ≠ chainC.id ∧
      _should_merge_entities chainA chainB = true ∧
      _should_merge_entities chainB chainC = true ∧
      _should_merge_entities chainA chainC = false) ∧
    (groupsOf [chainA, chainB, chainC] = [[chainA, chainB], [chainC]]
      ∧ canonicalize_entities 0 [chainA, chainB, chainC] =
          [mergeCore 0 [chainA, chainB], chainC]) :=
  ⟨⟨rfl, rfl, by decide, by decide, by decide,
      by with_unfolding_all decide, by with_unfolding_all decide,
      by with_unfolding_all decide⟩,
    seed_only_clustering 0 chainA chainB chainC rfl rfl (by decide) (by decide)
      (by decide) (by with_unfolding_all decide) (by with_unfolding_all decide)
      (by with_unfolding_all decide)⟩

/-! ## Concrete counterexamples and Example A's actual behaviour -/

/-- C1 counterexample: for Example A's pair, `shouldMerge` is not false —
"TensorFlow" and "Tensorflow" normalize to the same string, so the
alias-match exact-intersection test fires. -/
theorem example_A_shouldMerge_not_false :
    ¬ (_should_merge_entities tfA tfB = false) := by
  with_unfolding_all decide

/-- C1 (amended): for Example A's pair, `shouldMerge` is true (alias
match on case-insensitively identical names), `shouldCompare` is true,
and conflict detection over exactly these two entities produces exactly
two `compares_with` relationships at confidence 0.8. -/
theorem example_A_behavior :
    _should_merge_entities tfA tfB = true
  ∧ (_should_create_comparison_relationship tfA tfB).1 = true
  ∧ (create_comparison_relationships 0
      (detect_conflicts_in_entities [tfA, tfB])).length = 2
  ∧ ∀ r ∈ create_comparison_relationships 0
      (detect_conflicts_in_entities [tfA, tfB]),
      r.predicate = RelationType.compares_with ∧ r.confidence = 8 / 10 := by
  with_unfolding_all decide

/-- C2 counterexample: in the group `[tfA, tfB]` the non-primary member
is named `"Tensorflow"`, yet the merged alias list is empty — the name is
dropped because it equals the primary's name case-insensitively, so the
merged aliases are not the union that the claim describes. -/
theorem merged_aliases_counterexample :
    (sortBySalienceDesc [tfA, tfB]).tail = [tfB]
  ∧ tfB.name = "Tensorflow"
  ∧ (_merge_entities 0 [tfA, tfB]).map Entity.aliases = some [] := by
  with_unfolding_all decide

/-- C3 counterexample: a batch with no mergeable pair but interleaved
types (`Library, Concept, Library`) comes back regrouped by type, not in
the input order. -/
theorem canonicalize_order_counterexample :
    (∀ x ∈ ([pyEnt, jvEnt, rsEnt] : List Entity),
      ∀ y ∈ ([pyEnt, jvEnt, rsEnt] : List Entity),
        x ≠ y → _should_merge_entities x y = false)
  ∧ canonicalize_entities 0 [pyEnt, jvEnt, rsEnt] = [pyEnt, rsEnt, jvEnt]
  ∧ canonicalize_entities 0 [pyEnt, jvEnt, rsEnt] ≠ [pyEnt, jvEnt, rsEnt] := by
  with_unfolding_all decide

/-- Witness for `canonicalize_nomerge` on the same interleaved batch. -/
theorem canonicalize_nomerge_witness :
    ((([pyEnt, jvEnt, rsEnt] : List Entity).map Entity.id).Nodup ∧
      ([pyEnt, jvEnt, rsEnt] : List Entity).Pairwise
        (fun a b => _should_merge_entities a b = false)) ∧
    canonicalize_entities 0 [pyEnt, jvEnt, rsEnt] =
      (typesInOrder [pyEnt, jvEnt, rsEnt]).flatMap
        (fun t => ([pyEnt, jvEnt, rsEnt] : List Entity).filter
          (fun e => e.type = t)) :=
  ⟨⟨by with_unfolding_all decide, by with_unfolding_all decide⟩,
    (canonicalize_nomerge 0 [pyEnt, jvEnt, rsEnt] (by with_unfolding_all decide)
      (by with_unfolding_all decide)).1⟩

/-- C8 counterexample: a batch containing the same entity twice; the
duplicate is silently dropped, so
`len(canonical) = 1 ≠ 2 − Σ(groupSize−1) = 2`. -/
theorem merge_count_counterexample :
    ¬ ((canonicalize_entities 0 [pyEnt, pyEnt]).length =
        ([pyEnt, pyEnt] : List Entity).length -
          (((groupsOf [pyEnt, pyEnt]).filter (fun g => 1 < g.length)).map
            (fun g => g.length - 1)).sum) := by
  with_unfolding_all decide

/-- C10 counterexample: `dupJava1` and `dupJava2` share the id `d`, yet
it is the SECOND occurrence (`dupJava2`) that is absorbed — `seedPy`
merges with it before `dupJava1` is ever seeded — and its alias `"zzz"`
does appear in the canonical output, while the first occurrence is the
one omitted. -/
theorem duplicate_id_counterexample :
    dupJava1.id = dupJava2.id
  ∧ groupsOf [seedPy, dupJava1, dupJava2] = [[seedPy, dupJava2]]
  ∧ "zzz" ∈ (canonicalize_entities 0 [seedPy, dupJava1, dupJava2]).flatMap
      Entity.aliases := by
  with_unfolding_all decide

end GraphDemo
